import Mathlib

/-!
# HTTPServerWithDB: register and list users

A shallow embedding of `internal/handlers/handlers.go` and `internal/db/db.go`.

* Text (request bodies, field values, response bodies) is a sequence of Unicode
  code points: `String` at the interfaces, `List Char` inside the JSON reader and
  writer.  The strings `encoding/json` decodes are valid UTF-8, so nothing a handler
  stores or sends falls outside this representation; a request body is taken to be
  valid UTF-8 (Go replaces an invalid byte inside a string literal by U+FFFD and
  rejects it anywhere else).
* The `users` table is the list of its rows.  The answers of the SQL driver
  (whether `Exec` fails, what a result set delivers) are explicit inputs of the
  handlers, since the handlers branch on nothing else.
* `encoding/json` and `net/http` are library code; the parts the handlers call
  are written out below (`json.Decode`, `json.Encode`, `http.Error`,
  `ResponseWriter`).
-/

namespace HTTPServerWithDB

/-- The Go struct `User` of `handlers.go`, with JSON keys `username` and `email`. -/
structure User where
  Username : String
  Email : String
deriving DecidableEq, Repr

/-! ## encoding/json: reading -/

namespace json

/-- A JSON value as the reader sees it.  Numbers keep no value: a `User` has no
numeric field, only the well-formedness of a number matters. -/
inductive JValue where
  | null : JValue
  | bool (b : Bool) : JValue
  | num : JValue
  | str (s : List Char) : JValue
  | arr (xs : List JValue) : JValue
  | obj (kvs : List (List Char × JValue)) : JValue

/-- Go `isSpace`: space, tab, carriage return, line feed. -/
def isSpace (c : Char) : Bool :=
  c.toNat = 32 || c.toNat = 9 || c.toNat = 13 || c.toNat = 10

/-- Leading JSON white space removed. -/
def skipSpace : List Char → List Char
  | [] => []
  | c :: r => if isSpace c then skipSpace r else c :: r

/-- Decimal digit `0`..`9`. -/
def isDigit (c : Char) : Bool := 48 ≤ c.toNat && c.toNat ≤ 57

/-- Value of a hexadecimal digit, either case. -/
def hexVal (c : Char) : Option Nat :=
  let n := c.toNat
  if 48 ≤ n ∧ n ≤ 57 then some (n - 48)
  else if 97 ≤ n ∧ n ≤ 102 then some (n - 87)
  else if 65 ≤ n ∧ n ≤ 70 then some (n - 55)
  else none

/-- Go `getu4`: the number written by four hexadecimal digits. -/
def hex4 (a b c d : Char) : Option Nat :=
  match hexVal a, hexVal b, hexVal c, hexVal d with
  | some x, some y, some z, some w => some (((x * 16 + y) * 16 + z) * 16 + w)
  | _, _, _, _ => none

/-- Go `utf16.IsSurrogate`. -/
def isSurrogate (r : Nat) : Bool := 0xd800 ≤ r && r < 0xe000

/-- Go `utf16.DecodeRune`: the code point of a surrogate pair, `none` standing for the
replacement character returned on an invalid pair. -/
def decodeSurrogates (r1 r2 : Nat) : Option Nat :=
  if 0xd800 ≤ r1 ∧ r1 < 0xdc00 ∧ 0xdc00 ≤ r2 ∧ r2 < 0xe000 then
    some ((r1 - 0xd800) * 1024 + (r2 - 0xdc00) + 0x10000)
  else none

/-- The Unicode replacement character U+FFFD. -/
def replacementChar : Char := Char.ofNat 0xfffd

/-- The character a one-letter escape stands for (`\" \\ \/ \b \f \n \r \t`). -/
def simpleEscape (e : Char) : Option Char :=
  let n := e.toNat
  if n = 34 then some (Char.ofNat 34)
  else if n = 92 then some (Char.ofNat 92)
  else if n = 47 then some (Char.ofNat 47)
  else if n = 98 then some (Char.ofNat 8)
  else if n = 102 then some (Char.ofNat 12)
  else if n = 110 then some (Char.ofNat 10)
  else if n = 114 then some (Char.ofNat 13)
  else if n = 116 then some (Char.ofNat 9)
  else none

/-- Puts a decoded character in front of the decoded remainder of a string literal. -/
def consChar (c : Char) : Option (List Char × List Char) → Option (List Char × List Char)
  | some (s, rest) => some (c :: s, rest)
  | none => none

/-- Go `getu4`: the number written by an escape `\uXXXX` at the front of the input. -/
def getu4 (cs : List Char) : Option Nat :=
  match cs with
  | b :: u :: k1 :: k2 :: k3 :: k4 :: _ =>
    if b.toNat = 92 ∧ u.toNat = 117 then hex4 k1 k2 k3 k4 else none
  | _ => none

/-- The escape switch of Go `unquote`, on the input after a backslash: the character
the escape stands for and the number of input characters it takes.  An escape `\uXXXX`
that is a surrogate takes the following `\uXXXX` with it if the two form a pair, and
stands for the replacement character otherwise. -/
def readEscape (r : List Char) : Option (Char × Nat) :=
  match r with
  | [] => none
  | e :: r2 =>
    if e.toNat = 117 then
      match r2 with
      | h1 :: h2 :: h3 :: h4 :: r3 =>
        match hex4 h1 h2 h3 h4 with
        | none => none
        | some rr =>
          if isSurrogate rr then
            match getu4 r3 with
            | some rr1 =>
              match decodeSurrogates rr rr1 with
              | some cp => some (Char.ofNat cp, 11)
              | none => some (replacementChar, 5)
            | none => some (replacementChar, 5)
          else some (Char.ofNat rr, 5)
      | _ => none
    else
      match simpleEscape e with
      | some ch => some (ch, 1)
      | none => none

/-- The loop of Go `unquote` over a string literal, from just after its opening quote
(scanner states `stateInString`, `stateInStringEsc`, `stateInStringEscU..`).  `skip`
is the number of characters at the front that the last escape has already taken.
Returns the decoded text and the input after the closing quote; `none` on a control
character, a bad escape or a missing closing quote. -/
def unquote : Nat → List Char → Option (List Char × List Char)
  | _, [] => none
  | skip + 1, _ :: r => unquote skip r
  | 0, c :: r =>
    if c.toNat = 34 then some ([], r)
    else if c.toNat = 92 then
      match readEscape r with
      | some (ch, k) => consChar ch (unquote k r)
      | none => none
    else if c.toNat < 32 then none
    else consChar c (unquote 0 r)

/-- A string literal read from just after its opening quote. -/
def readString (cs : List Char) : Option (List Char × List Char) := unquote 0 cs

/-- Scanner states `stateE`, `stateESign`, `stateE0`: the exponent after `e` or `E`. -/
def scanExp (cs : List Char) : Option (List Char) :=
  let cs1 := match cs with
    | c :: r => if c.toNat = 43 ∨ c.toNat = 45 then r else cs
    | [] => cs
  match cs1 with
  | c :: r => if isDigit c then some (r.dropWhile isDigit) else none
  | [] => none

/-- Scanner states `state0`, `stateDot`, `stateDot0`: what may follow the integer part. -/
def scanFrac (cs : List Char) : Option (List Char) :=
  match cs with
  | [] => some cs
  | c :: r =>
    if c.toNat = 46 then
      match r with
      | d :: r2 =>
        if isDigit d then
          match r2.dropWhile isDigit with
          | [] => some []
          | e :: r3 => if e.toNat = 101 ∨ e.toNat = 69 then scanExp r3 else some (e :: r3)
        else none
      | [] => none
    else if c.toNat = 101 ∨ c.toNat = 69 then scanExp r
    else some cs

/-- Scanner states `stateNeg`, `state0`, `state1`: a number literal; returns the input
after it. -/
def scanNumber (cs : List Char) : Option (List Char) :=
  let cs1 := match cs with
    | c :: r => if c.toNat = 45 then r else cs
    | [] => cs
  match cs1 with
  | c :: r =>
    if c.toNat = 48 then scanFrac r
    else if isDigit c then scanFrac (r.dropWhile isDigit)
    else none
  | [] => none

/-- Removes the literal `lit` from the front of the input. -/
def expect (lit : List Char) (cs : List Char) : Option (List Char) :=
  if lit.isPrefixOf cs then some (cs.drop lit.length) else none

/-- Go `maxNestingDepth`. -/
def maxNestingDepth : Nat := 10000

/-- What the reader is in the middle of. -/
inductive Mode where
  | value : Mode
  | elems (acc : List JValue) : Mode
  | members (acc : List (List Char × JValue)) : Mode

/-- Reads one JSON value from the front of the input (the scanner of `scanner.go`
driven by `Decoder.readValue`) and returns it with the unread remainder.  `depth` is
the number of open arrays and objects; `fuel` bounds the number of nested calls.
`Mode.value` expects a value, `Mode.elems` the next array element, `Mode.members` the
next object member. -/
def read : Nat → Nat → Mode → List Char → Option (JValue × List Char)
  | 0, _, _, _ => none
  | fuel + 1, depth, Mode.value, cs =>
    match skipSpace cs with
    | [] => none
    | c :: r =>
      if c.toNat = 123 then
        if depth + 1 ≤ maxNestingDepth then
          match skipSpace r with
          | [] => none
          | c2 :: r2 =>
            if c2.toNat = 125 then some (JValue.obj [], r2)
            else read fuel (depth + 1) (Mode.members []) (c2 :: r2)
        else none
      else if c.toNat = 91 then
        if depth + 1 ≤ maxNestingDepth then
          match skipSpace r with
          | [] => none
          | c2 :: r2 =>
            if c2.toNat = 93 then some (JValue.arr [], r2)
            else read fuel (depth + 1) (Mode.elems []) (c2 :: r2)
        else none
      else if c.toNat = 34 then
        match readString r with
        | some (s, rest) => some (JValue.str s, rest)
        | none => none
      else if c.toNat = 45 ∨ isDigit c then
        match scanNumber (c :: r) with
        | some rest => some (JValue.num, rest)
        | none => none
      else if c.toNat = 116 then
        match expect "true".toList (c :: r) with
        | some rest => some (JValue.bool true, rest)
        | none => none
      else if c.toNat = 102 then
        match expect "false".toList (c :: r) with
        | some rest => some (JValue.bool false, rest)
        | none => none
      else if c.toNat = 110 then
        match expect "null".toList (c :: r) with
        | some rest => some (JValue.null, rest)
        | none => none
      else none
  | fuel + 1, depth, Mode.elems acc, cs =>
    match read fuel depth Mode.value cs with
    | none => none
    | some (v, rest) =>
      match skipSpace rest with
      | [] => none
      | c :: r =>
        if c.toNat = 44 then read fuel depth (Mode.elems (acc ++ [v])) r
        else if c.toNat = 93 then some (JValue.arr (acc ++ [v]), r)
        else none
  | fuel + 1, depth, Mode.members acc, cs =>
    match skipSpace cs with
    | [] => none
    | q :: r =>
      if q.toNat = 34 then
        match readString r with
        | none => none
        | some (key, rest) =>
          match skipSpace rest with
          | [] => none
          | colon :: r2 =>
            if colon.toNat = 58 then
              match read fuel depth Mode.value r2 with
              | none => none
              | some (v, rest2) =>
                match skipSpace rest2 with
                | [] => none
                | c :: r3 =>
                  if c.toNat = 44 then read fuel depth (Mode.members (acc ++ [(key, v)])) r3
                  else if c.toNat = 125 then some (JValue.obj (acc ++ [(key, v)]), r3)
                  else none
            else none
      else none

/-- Go `Decoder.readValue` on a whole body: the first JSON value of the stream, with
the input after it, which `Decode` never reads.  The fuel covers two nested calls for
each character of the body (`readValue_fuel`: more fuel reads the same). -/
def readValue (body : List Char) : Option (JValue × List Char) :=
  read (2 * body.length + 2) 0 Mode.value body

/-- The nested calls `read` needs at most on an input: two for each character, and one
more where the next array element is expected. -/
def fuelBound : Mode → List Char → Nat
  | Mode.value, cs => 2 * cs.length + 1
  | Mode.elems _, cs => 2 * cs.length + 2
  | Mode.members _, cs => 2 * cs.length + 1

/-- The fields of `User` a JSON key can name. -/
inductive Field where
  | Username : Field
  | Email : Field
deriving DecidableEq, Repr

/-- Go `foldRune` as far as it matters for ASCII field names: ASCII letters go to upper
case, and the two non-ASCII characters whose fold orbit holds an ASCII letter (U+017F
long s, U+212A Kelvin sign) go to `S` and `K`.  Every other non-ASCII character folds
to a non-ASCII one in Go and is left as it is. -/
def foldRune (c : Char) : Char :=
  let n := c.toNat
  if 97 ≤ n ∧ n ≤ 122 then Char.ofNat (n - 32)
  else if n = 0x17f then Char.ofNat 83
  else if n = 0x212a then Char.ofNat 75
  else c

/-- Go `foldName`. -/
def foldName (key : List Char) : List Char := key.map foldRune

/-- The field a key selects: `byExactName` first, then `byFoldedName`. -/
def lookupField (key : List Char) : Option Field :=
  if key = "username".toList then some Field.Username
  else if key = "email".toList then some Field.Email
  else if foldName key = foldName "username".toList then some Field.Username
  else if foldName key = foldName "email".toList then some Field.Email
  else none

/-- The errors `Decode` returns. -/
inductive DecodeError where
  | eof : DecodeError
  | syntaxError : DecodeError
  | unmarshalTypeError : DecodeError
deriving DecidableEq, Repr

/-- The `decodeState` while a value is stored into a `User`: the struct so far and
whether an `UnmarshalTypeError` has been saved (`d.savedError`). -/
structure DecodeState where
  user : User
  savedError : Bool
deriving DecidableEq, Repr

/-- Go `literalStore`, `array` and `object` on a field of kind string: a string is
stored, `null` leaves the field as it is, any other value saves an
`UnmarshalTypeError` and is skipped. -/
def storeField (f : Field) (v : JValue) (st : DecodeState) : DecodeState :=
  match v with
  | JValue.str s =>
    match f with
    | Field.Username => { st with user := { st.user with Username := String.mk s } }
    | Field.Email => { st with user := { st.user with Email := String.mk s } }
  | JValue.null => st
  | _ => { st with savedError := true }

/-- Go `decodeState.object` on a struct: the members in order, a key that names no
field being skipped with its value. -/
def storeMembers : List (List Char × JValue) → DecodeState → DecodeState
  | [], st => st
  | (key, v) :: rest, st =>
    match lookupField key with
    | some f => storeMembers rest (storeField f v st)
    | none => storeMembers rest st

/-- Go `decodeState.value` on a `*User`: an object fills the struct, `null` leaves it
as it is, any other value saves an `UnmarshalTypeError`. -/
def storeUser (v : JValue) (st : DecodeState) : DecodeState :=
  match v with
  | JValue.obj kvs => storeMembers kvs st
  | JValue.null => st
  | _ => { st with savedError := true }

/-- Go `json.NewDecoder(body).Decode(&regUser)` with `regUser` the zero `User`: reads
the first JSON value of the body and stores it.  Nothing after that value is read. -/
def Decode (body : String) : Except DecodeError User :=
  match skipSpace body.toList with
  | [] => Except.error DecodeError.eof
  | _ :: _ =>
    match readValue body.toList with
    | none => Except.error DecodeError.syntaxError
    | some (v, _) =>
      let st := storeUser v { user := { Username := "", Email := "" }, savedError := false }
      if st.savedError then Except.error DecodeError.unmarshalTypeError
      else Except.ok st.user

/-- Whether a field of kind string takes the value without an error: a string is
stored and `null` is passed over. -/
def fitsString : JValue → Bool
  | JValue.str _ => true
  | JValue.null => true
  | _ => false

/-- The shape of a first value that a `User` takes without an error: `null`, or an
object in which every member whose key names a field holds a string or `null`.
Members with other keys may hold anything, and no field has to be present. -/
def expectedShape : JValue → Bool
  | JValue.obj kvs => kvs.all (fun kv => (lookupField kv.1).isNone || fitsString kv.2)
  | JValue.null => true
  | _ => false

/-- Whether a request body is rejected for what it is: it does not start with a
well-formed JSON value (it is empty, blank, malformed or cut off), or its first value
has not the expected shape. -/
def rejected (body : String) : Bool :=
  match readValue body.toList with
  | none => true
  | some (v, _) => !expectedShape v

/-! ## encoding/json: writing -/

/-- The lower-case hexadecimal digit of a number below 16. -/
def hexDigit (n : Nat) : Char :=
  if n < 10 then Char.ofNat (48 + n) else Char.ofNat (87 + n)

/-- Go `appendString` with `escapeHTML` on, for one character: quote and backslash get
a backslash, the control characters and `<`, `>`, `&`, U+2028, U+2029 an escape, in the
short form for backspace, form feed, line feed, carriage return and tab. -/
def escapeChar (c : Char) : List Char :=
  let n := c.toNat
  if n = 34 ∨ n = 92 then [Char.ofNat 92, c]
  else if n = 8 then [Char.ofNat 92, Char.ofNat 98]
  else if n = 12 then [Char.ofNat 92, Char.ofNat 102]
  else if n = 10 then [Char.ofNat 92, Char.ofNat 110]
  else if n = 13 then [Char.ofNat 92, Char.ofNat 114]
  else if n = 9 then [Char.ofNat 92, Char.ofNat 116]
  else if n < 32 ∨ n = 60 ∨ n = 62 ∨ n = 38 then
    [Char.ofNat 92, Char.ofNat 117, Char.ofNat 48, Char.ofNat 48, hexDigit (n / 16), hexDigit (n % 16)]
  else if n = 0x2028 ∨ n = 0x2029 then
    [Char.ofNat 92, Char.ofNat 117, Char.ofNat 50, Char.ofNat 48, Char.ofNat 50, hexDigit (n % 16)]
  else [c]

/-- The escaped characters of a string, without the quotes. -/
def escape : List Char → List Char
  | [] => []
  | c :: r => escapeChar c ++ escape r

/-- A string as a JSON string literal. -/
def quote (s : String) : List Char :=
  Char.ofNat 34 :: (escape s.toList ++ [Char.ofNat 34])

/-- A `User` as a JSON object, fields in declaration order. -/
def encodeUser (u : User) : List Char :=
  "\x7b\"username\":".toList ++ quote u.Username ++ ",\"email\":".toList ++ quote u.Email
    ++ [Char.ofNat 125]

/-- The JSON object a `User` is written as: the two keys in declaration order, each
with a string. -/
def userValue (u : User) : JValue :=
  JValue.obj [("username".toList, JValue.str u.Username.toList),
    ("email".toList, JValue.str u.Email.toList)]

/-- The elements of a non-empty array, separated by commas. -/
def encodeElems : List User → List Char
  | [] => []
  | [u] => encodeUser u
  | u :: v :: rest => encodeUser u ++ Char.ofNat 44 :: encodeElems (v :: rest)

/-- A Go slice of `User`: `none` is the nil slice. -/
abbrev Slice := Option (List User)

/-- Go `append(s, u)`. -/
def Slice.append : Slice → User → Slice
  | none, u => some [u]
  | some xs, u => some (xs ++ [u])

/-- A `[]User` as JSON: the nil slice is `null`, any other slice an array. -/
def encodeSlice : Slice → List Char
  | none => "null".toList
  | some xs => Char.ofNat 91 :: (encodeElems xs ++ [Char.ofNat 93])

/-- Go `json.NewEncoder(w).Encode(listUsers)`: the JSON text followed by a newline. -/
def Encode (v : Slice) : String := String.mk (encodeSlice v ++ [Char.ofNat 10])

/-- Storing one array element into a `User`, as `storeUser` on the zero struct. -/
def elemUser (v : JValue) : Option User :=
  let st := storeUser v { user := { Username := "", Email := "" }, savedError := false }
  if st.savedError then none else some st.user

/-- The elements of an array as users. -/
def elemUsers : List JValue → Option (List User)
  | [] => some []
  | v :: rest =>
    match elemUser v, elemUsers rest with
    | some u, some us => some (u :: us)
    | _, _ => none

/-- Reading a response body back as a `[]User` (Go `Decode` into a nil slice): an
array gives its elements, `null` the nil slice. -/
def DecodeSlice (body : String) : Option Slice :=
  match readValue body.toList with
  | some (JValue.arr xs, _) =>
    match elemUsers xs with
    | some us => some (some us)
    | none => none
  | some (JValue.null, _) => some none
  | _ => none

end json

/-! ## net/http -/

namespace http

/-- Go `http.MethodGet`. -/
def MethodGet : String := "GET"

/-- Go `http.MethodPost`. -/
def MethodPost : String := "POST"

/-- Go `http.StatusOK`. -/
def StatusOK : Nat := 200

/-- Go `http.StatusCreated`. -/
def StatusCreated : Nat := 201

/-- Go `http.StatusBadRequest`. -/
def StatusBadRequest : Nat := 400

/-- Go `http.StatusMethodNotAllowed`. -/
def StatusMethodNotAllowed : Nat := 405

/-- Go `http.StatusInternalServerError`. -/
def StatusInternalServerError : Nat := 500

/-- The part of `*http.Request` the handlers read. -/
structure Request where
  Method : String
  Body : String
deriving DecidableEq, Repr

/-- What a handler has done to its `http.ResponseWriter`: the header map, the status
code once `WriteHeader` has run (explicitly or by the first `Write`), and the bytes
written. -/
structure ResponseWriter where
  header : List (String × String)
  status : Option Nat
  body : String
deriving DecidableEq, Repr

/-- The writer a handler receives: nothing set, nothing written. -/
def ResponseWriter.fresh : ResponseWriter := { header := [], status := none, body := "" }

/-- Go `Header.Del`. -/
def ResponseWriter.Del (w : ResponseWriter) (key : String) : ResponseWriter :=
  { w with header := w.header.filter (fun kv => kv.1 ≠ key) }

/-- Go `Header.Set`: replaces the values of `key`. -/
def ResponseWriter.Set (w : ResponseWriter) (key value : String) : ResponseWriter :=
  { w with header := (w.header.filter (fun kv => kv.1 ≠ key)) ++ [(key, value)] }

/-- Go `ResponseWriter.WriteHeader`: the first call fixes the status code. -/
def ResponseWriter.WriteHeader (w : ResponseWriter) (code : Nat) : ResponseWriter :=
  match w.status with
  | some _ => w
  | none => { w with status := some code }

/-- Go `ResponseWriter.Write`: sends status 200 first if no status was sent. -/
def ResponseWriter.Write (w : ResponseWriter) (data : String) : ResponseWriter :=
  let w1 := w.WriteHeader StatusOK
  { w1 with body := w1.body ++ data }

/-- Go `http.Error`: plain-text headers, the status code, the message and a newline. -/
def Error (w : ResponseWriter) (error : String) (code : Nat) : ResponseWriter :=
  let w1 := w.Del "Content-Length"
  let w2 := w1.Set "Content-Type" "text/plain; charset=utf-8"
  let w3 := w2.Set "X-Content-Type-Options" "nosniff"
  let w4 := w3.WriteHeader code
  w4.Write (error ++ "\n")

/-- The status code the client receives: 200 when the handler never sent one. -/
def ResponseWriter.code (w : ResponseWriter) : Nat := w.status.getD StatusOK

end http

/-! ## internal/db -/

namespace db

/-- The `users` table: its rows. -/
abbrev Table := List User

/-- What one `rows.Next()` that returned true leads to: `rows.Scan` fills a `User` or
fails. -/
inductive RowStep where
  | row (u : User) : RowStep
  | scanFails (err : String) : RowStep
deriving DecidableEq, Repr

/-- A result set `*sql.Rows` as the handler experiences it: the rows delivered before
`Next` returns false, and the error that made it return false if it was not the end
of the result set (`rows.Err()`). -/
structure Rows where
  steps : List RowStep
  err : Option String
deriving DecidableEq, Repr

/-- The answer of `DB.Query`: an error or a result set. -/
inductive QueryResult where
  | failed (err : String) : QueryResult
  | rows (rs : Rows) : QueryResult
deriving DecidableEq, Repr

/-- A complete, fault-free answer to `SELECT username, email FROM users` on table `t`:
every stored row exactly once, in the order the storage engine chose. -/
def Rows.complete (rs : Rows) (t : Table) (order : List User) : Prop :=
  rs.steps = order.map RowStep.row ∧ rs.err = none ∧ order.Perm t

/-- `DB.Exec` of the INSERT statement: `fault` is the error of the driver, if any.  A
failed statement leaves the table as it was, a successful one adds the row. -/
def ExecInsert (t : Table) (username email : String) (fault : Option String) :
    Table × Option String :=
  match fault with
  | some err => (t, some err)
  | none => (t ++ [{ Username := username, Email := email }], none)

/-- The state of the database before `Connect`: the `users` table, if it exists. -/
abbrev Database := Option Table

/-- `DB.Exec` of `CREATE TABLE IF NOT EXISTS users (...)`: creates the empty table
unless there is one. -/
def ExecCreate (d : Database) (fault : Option String) : Database × Option String :=
  match fault with
  | some err => (d, some err)
  | none =>
    match d with
    | some t => (some t, none)
    | none => (some [], none)

/-- Go `Connect`: `sql.Open` (which fails only for an unknown driver name), then the
schema statement.  Returns the database and the error, `none` for nil. -/
def Connect (d : Database) (openFault execFault : Option String) : Database × Option String :=
  match openFault with
  | some err => (d, some err)
  | none =>
    match ExecCreate d execFault with
    | (d1, some err) => (d1, some err)
    | (d1, none) => (d1, none)

end db

/-! ## internal/handlers -/

namespace handlers

open http db

/-- The text of the statement `HandlerRegister` executes. -/
def insertStmt : String := "INSERT INTO users (username, email) VALUES ($1, $2)"

/-- The text of the statement `HandlerUser` queries. -/
def selectStmt : String := "SELECT username, email FROM users"

/-- Everything a handler call leaves behind: the response, the table, the SQL
statements it handed to `db.DB` and the lines it logged (without the time stamp). -/
structure Outcome where
  w : ResponseWriter
  users : Table
  stmts : List String
  log : List String
deriving DecidableEq, Repr

/-- Go `HandlerRegister`.  `users` is the table when the request arrives and
`execFault` the error with which the driver would fail the INSERT, if any. -/
def HandlerRegister (w : ResponseWriter) (r : Request) (users : Table)
    (execFault : Option String) : Outcome :=
  if r.Method ≠ MethodPost then
    { w := w.WriteHeader StatusMethodNotAllowed, users := users, stmts := [], log := [] }
  else
    match json.Decode r.Body with
    | Except.error _ =>
      { w := Error w "Invalid request body" StatusBadRequest, users := users, stmts := [],
        log := [] }
    | Except.ok regUser =>
      if regUser.Username = "" ∨ regUser.Email = "" then
        { w := Error w "Missing fields" StatusBadRequest, users := users, stmts := [],
          log := [] }
      else
        match ExecInsert users regUser.Username regUser.Email execFault with
        | (users1, some err) =>
          { w := Error w "Internal server error" StatusInternalServerError, users := users1,
            stmts := [insertStmt], log := ["Failed to insert user: " ++ err ++ "\n"] }
        | (users1, none) =>
          { w := w.WriteHeader StatusCreated, users := users1, stmts := [insertStmt],
            log := [] }

/-- The loop `for rows.Next() { ... rows.Scan ... append }` of `HandlerUser`: the list
built when `Next` returns false, or the error of the first failing `Scan`. -/
def scanLoop : List RowStep → json.Slice → Except String json.Slice
  | [], listUsers => Except.ok listUsers
  | RowStep.scanFails err :: _, _ => Except.error err
  | RowStep.row user :: rest, listUsers => scanLoop rest (listUsers.append user)

/-- Go `HandlerUser`.  `q` is the answer of the driver to the SELECT statement. -/
def HandlerUser (w : ResponseWriter) (r : Request) (users : Table) (q : QueryResult) :
    Outcome :=
  if r.Method ≠ MethodGet then
    { w := w.WriteHeader StatusMethodNotAllowed, users := users, stmts := [], log := [] }
  else
    match q with
    | QueryResult.failed err =>
      { w := Error w "Internal server error" StatusInternalServerError, users := users,
        stmts := [selectStmt], log := ["Failed to query users: " ++ err ++ "\n"] }
    | QueryResult.rows rs =>
      match scanLoop rs.steps none with
      | Except.error err =>
        { w := Error w "Internal server error" StatusInternalServerError, users := users,
          stmts := [selectStmt], log := ["Failed to scan user: " ++ err ++ "\n"] }
      | Except.ok listUsers =>
        let w1 := w.Set "Content-Type" "application/json"
        { w := w1.Write (json.Encode listUsers), users := users, stmts := [selectStmt],
          log := [] }

/-- The outcome of `HandlerRegister` on a body `Decode` returns an error for: status
400 with the message `Invalid request body`, no statement issued, the table as it
was. -/
def invalidBody (t : Table) : Outcome :=
  { w := { header := [("Content-Type", "text/plain; charset=utf-8"),
                      ("X-Content-Type-Options", "nosniff")],
           status := some 400, body := "Invalid request body\n" },
    users := t, stmts := [], log := [] }

/-- The outcome of `HandlerRegister` on a body that leaves a field empty: status 400
with the message `Missing fields`, no statement issued, the table as it was. -/
def missingFields (t : Table) : Outcome :=
  { w := { header := [("Content-Type", "text/plain; charset=utf-8"),
                      ("X-Content-Type-Options", "nosniff")],
           status := some 400, body := "Missing fields\n" },
    users := t, stmts := [], log := [] }

/-- One request to the server of `main.go`, with the answer of the driver to the
statement the handler may issue. -/
inductive Call where
  | register (r : Request) (execFault : Option String) : Call
  | users (r : Request) (q : QueryResult) : Call

/-- The table after one request. -/
def step (t : Table) : Call → Table
  | Call.register r execFault => (HandlerRegister ResponseWriter.fresh r t execFault).users
  | Call.users r q => (HandlerUser ResponseWriter.fresh r t q).users

/-- The table after a sequence of requests. -/
def run : Table → List Call → Table
  | t, [] => t
  | t, c :: cs => run (step t c) cs

/-- Every stored record has a non-empty username and a non-empty email. -/
def NonEmptyRows (t : Table) : Prop := ∀ u ∈ t, u.Username ≠ "" ∧ u.Email ≠ ""

end handlers

namespace json

/-! ## What is written reads back -/

/-- Reading a string literal one step: an ordinary character is kept. -/
theorem readString_plain (c : Char) (rest : List Char) (h1 : c.toNat ≠ 34) (h2 : c.toNat ≠ 92)
    (h3 : ¬ c.toNat < 32) :
    readString (c :: rest) = consChar c (readString rest) := by
  simp [readString, unquote, h1, h2, h3]

/-- The escape written for a character that is always escaped reads back as that
character. -/
theorem readString_escape_special (n : Nat) (rest : List Char)
    (h : n < 32 ∨ n = 34 ∨ n = 92 ∨ n = 60 ∨ n = 62 ∨ n = 38 ∨ n = 0x2028 ∨ n = 0x2029) :
    readString (escapeChar (Char.ofNat n) ++ rest)
      = consChar (Char.ofNat n) (readString rest) := by
  rcases h with h | h | h | h | h | h | h | h
  · interval_cases n <;> rfl
  all_goals subst h; rfl

/-- What `escapeChar` writes for a character reads back as that character. -/
theorem readString_escapeChar (c : Char) (rest : List Char) :
    readString (escapeChar c ++ rest) = consChar c (readString rest) := by
  by_cases h : c.toNat < 32 ∨ c.toNat = 34 ∨ c.toNat = 92 ∨ c.toNat = 60 ∨ c.toNat = 62
      ∨ c.toNat = 38 ∨ c.toNat = 0x2028 ∨ c.toNat = 0x2029
  · have := readString_escape_special c.toNat rest h
    rwa [Char.ofNat_toNat] at this
  · simp only [not_or] at h
    obtain ⟨h0, h1, h2, h3, h4, h5, h6, h7⟩ := h
    have hesc : escapeChar c = [c] := by
      have h8 : c.toNat ≠ 8 := fun e => h0 (by omega)
      have h12 : c.toNat ≠ 12 := fun e => h0 (by omega)
      have h10 : c.toNat ≠ 10 := fun e => h0 (by omega)
      have h13 : c.toNat ≠ 13 := fun e => h0 (by omega)
      have h9 : c.toNat ≠ 9 := fun e => h0 (by omega)
      simp [escapeChar, h0, h1, h2, h3, h4, h5, h6, h7, h8, h9, h10, h12, h13]
    rw [hesc]
    exact readString_plain c rest h1 h2 h0

/-- A written string literal reads back as the string, up to its closing quote. -/
theorem readString_escape (s rest : List Char) :
    readString (escape s ++ Char.ofNat 34 :: rest) = some (s, rest) := by
  induction s with
  | nil => rfl
  | cons c s ih =>
    rw [escape, List.append_assoc, readString_escapeChar, ih]
    rfl

/-- Punctuation is not white space. -/
theorem skipSpace_punct (n : Nat) (X : List Char)
    (h : n = 34 ∨ n = 58 ∨ n = 44 ∨ n = 125 ∨ n = 123 ∨ n = 91 ∨ n = 93) :
    skipSpace (Char.ofNat n :: X) = Char.ofNat n :: X := by
  rcases h with h | h | h | h | h | h | h <;> subst h <;> rfl

/-- Reading a value that starts with a quote reads a string literal. -/
theorem read_string_value (f d : Nat) (s Y Z : List Char) (hs : readString Y = some (s, Z)) :
    read (f + 1) d Mode.value (Char.ofNat 34 :: Y) = some (JValue.str s, Z) := by
  rw [read, skipSpace_punct 34 Y (by simp)]
  simp [hs]

/-- Reading a member with a string value that is followed by a comma. -/
theorem read_member_comma (f d : Nat) (acc : List (List Char × JValue)) (key s X Y Z : List Char)
    (hk : readString X = some (key, Char.ofNat 58 :: Char.ofNat 34 :: Y))
    (hs : readString Y = some (s, Char.ofNat 44 :: Z)) :
    read (f + 2) d (Mode.members acc) (Char.ofNat 34 :: X)
      = read (f + 1) d (Mode.members (acc ++ [(key, JValue.str s)])) Z := by
  rw [read, skipSpace_punct 34 X (by simp)]
  simp only [hk, skipSpace_punct 58 _ (by simp), read_string_value f d s Y _ hs,
    skipSpace_punct 44 _ (by simp)]
  simp

/-- Reading a member with a string value that is followed by the closing brace. -/
theorem read_member_close (f d : Nat) (acc : List (List Char × JValue)) (key s X Y Z : List Char)
    (hk : readString X = some (key, Char.ofNat 58 :: Char.ofNat 34 :: Y))
    (hs : readString Y = some (s, Char.ofNat 125 :: Z)) :
    read (f + 2) d (Mode.members acc) (Char.ofNat 34 :: X)
      = some (JValue.obj (acc ++ [(key, JValue.str s)]), Z) := by
  rw [read, skipSpace_punct 34 X (by simp)]
  simp only [hk, skipSpace_punct 58 _ (by simp), read_string_value f d s Y _ hs,
    skipSpace_punct 125 _ (by simp)]
  simp

/-- Reading a value that starts with an opening brace and a quote reads members. -/
theorem read_object_open (f d : Nat) (X : List Char) (hd : d < maxNestingDepth) :
    read (f + 1) d Mode.value (Char.ofNat 123 :: Char.ofNat 34 :: X)
      = read f (d + 1) (Mode.members []) (Char.ofNat 34 :: X) := by
  rw [read, skipSpace_punct 123 _ (by simp)]
  have hd2 : d + 1 ≤ maxNestingDepth := hd
  simp [hd2, skipSpace_punct 34 X (by simp)]

/-- The characters of a written `User`, one by one up to the two field values. -/
theorem encodeUser_append (u : User) (rest : List Char) :
    encodeUser u ++ rest
      = Char.ofNat 123 :: Char.ofNat 34 :: (escape "username".toList ++ Char.ofNat 34 ::
          Char.ofNat 58 :: Char.ofNat 34 :: (escape u.Username.toList ++ Char.ofNat 34 ::
          Char.ofNat 44 :: Char.ofNat 34 :: (escape "email".toList ++ Char.ofNat 34 ::
          Char.ofNat 58 :: Char.ofNat 34 :: (escape u.Email.toList ++ Char.ofNat 34 ::
          Char.ofNat 125 :: rest)))) := by
  have h1 : "\x7b\"username\":".toList
      = Char.ofNat 123 :: Char.ofNat 34 :: (escape "username".toList
          ++ [Char.ofNat 34, Char.ofNat 58]) := rfl
  have h2 : ",\"email\":".toList
      = Char.ofNat 44 :: Char.ofNat 34 :: (escape "email".toList
          ++ [Char.ofNat 34, Char.ofNat 58]) := rfl
  simp only [encodeUser, quote, h1, h2, List.append_assoc, List.cons_append, List.nil_append]

/-- A written `User` reads back as the object with its two fields. -/
theorem read_encodeUser (f d : Nat) (u : User) (rest : List Char) (hd : d < maxNestingDepth) :
    read (f + 4) d Mode.value (encodeUser u ++ rest) = some (userValue u, rest) := by
  rw [encodeUser_append, read_object_open (f + 3) d _ hd,
    read_member_comma (f + 1) (d + 1) [] _ _ _ _ _ (readString_escape _ _) (readString_escape _ _)]
  rw [read_member_close f (d + 1) _ _ _ _ _ _ (readString_escape _ _) (readString_escape _ _)]
  rfl

/-- A written non-empty sequence of users, read as the elements of an array. -/
theorem read_encodeElems (xs : List User) :
    ∀ (x : User) (acc : List JValue) (f d : Nat) (rest : List Char),
      xs.length + 5 ≤ f → d < maxNestingDepth →
      read f d (Mode.elems acc) (encodeElems (x :: xs) ++ Char.ofNat 93 :: rest)
        = some (JValue.arr (acc ++ (x :: xs).map userValue), rest) := by
  induction xs with
  | nil =>
    intro x acc f d rest hf hd
    obtain ⟨g, rfl⟩ : ∃ g, f = g + 5 := ⟨f - 5, by simp at hf; omega⟩
    rw [read]
    simp only [encodeElems]
    rw [read_encodeUser g d x _ hd]
    simp only [skipSpace_punct 93 _ (by simp)]
    simp
  | cons y ys ih =>
    intro x acc f d rest hf hd
    obtain ⟨g, rfl⟩ : ∃ g, f = g + 5 := ⟨f - 5, by simp at hf; omega⟩
    rw [read]
    simp only [encodeElems, List.append_assoc, List.cons_append]
    rw [read_encodeUser g d x _ hd]
    simp only [skipSpace_punct 44 _ (by simp)]
    have := ih y (acc ++ [userValue x]) (g + 4) d rest (by simp at hf ⊢; omega) hd
    simp [this]

/-- The users of the objects written for a list of users are those users. -/
theorem elemUsers_userValue (xs : List User) : elemUsers (xs.map userValue) = some xs := by
  induction xs with
  | nil => rfl
  | cons x xs ih =>
    have hx : elemUser (userValue x) = some x := rfl
    simp [elemUsers, hx, ih]

/-- A written user takes at least one character. -/
theorem encodeElems_length (xs : List User) : xs.length ≤ (encodeElems xs).length := by
  induction xs with
  | nil => simp [encodeElems]
  | cons x xs ih =>
    cases xs with
    | nil => simp [encodeElems, encodeUser]
    | cons y ys =>
      simp only [encodeElems, List.length_append, List.length_cons] at ih ⊢
      omega

/-- A written non-empty slice reads back as the array of the written users, the
newline left unread. -/
theorem readValue_Encode (x : User) (xs : List User) :
    readValue (Encode (some (x :: xs))).toList
      = some (JValue.arr ((x :: xs).map userValue), [Char.ofNat 10]) := by
  have hlen := encodeElems_length (x :: xs)
  have hbody : (Encode (some (x :: xs))).toList
      = Char.ofNat 91 :: (encodeElems (x :: xs) ++ Char.ofNat 93 :: [Char.ofNat 10]) := by
    simp [Encode, encodeSlice]
  have hopen : ∃ tl, encodeElems (x :: xs) ++ Char.ofNat 93 :: [Char.ofNat 10]
      = Char.ofNat 123 :: tl := by
    cases xs with
    | nil => exact ⟨_, by rw [encodeElems, encodeUser_append]⟩
    | cons y ys => exact ⟨_, by rw [encodeElems, List.append_assoc, encodeUser_append]⟩
  obtain ⟨tl, htl⟩ := hopen
  rw [hbody, readValue]
  obtain ⟨g, hg⟩ : ∃ g, 2 * (Char.ofNat 91 :: (encodeElems (x :: xs)
      ++ Char.ofNat 93 :: [Char.ofNat 10])).length + 2 = g + 1 := ⟨_, rfl⟩
  have hg5 : xs.length + 5 ≤ g := by
    simp only [List.length_cons, List.length_append, List.length_nil] at hg hlen
    omega
  rw [hg, read, skipSpace_punct 91 _ (by simp)]
  have h0 : (0 : Nat) + 1 ≤ maxNestingDepth := by decide
  have h1 : (0 : Nat) + 1 < maxNestingDepth := by decide
  have hskip : skipSpace (Char.ofNat 123 :: tl) = Char.ofNat 123 :: tl :=
    skipSpace_punct 123 _ (by simp)
  have key := read_encodeElems xs x [] g (0 + 1) [Char.ofNat 10] hg5 h1
  rw [htl] at key
  simp only [htl, hskip]
  simp [h0, key]

/-- What `Encode` writes for a slice, `DecodeSlice` reads back as that slice. -/
theorem DecodeSlice_Encode (v : Slice) : DecodeSlice (Encode v) = some v := by
  cases v with
  | none => rfl
  | some xs =>
    cases xs with
    | nil => rfl
    | cons x xs =>
      simp only [DecodeSlice, readValue_Encode]
      rw [elemUsers_userValue]

/-- The object written for a `User`, followed by any further characters, is a request
body that decodes to that user: what follows the first value is not read. -/
theorem Decode_encodeUser (u : User) (trailing : List Char) :
    Decode (String.mk (encodeUser u ++ trailing)) = Except.ok u := by
  have happ := encodeUser_append u trailing
  obtain ⟨g, hg⟩ : ∃ g, 2 * (encodeUser u ++ trailing).length + 2 = g + 4 :=
    ⟨2 * (encodeUser u ++ trailing).length - 2, by
      have : 2 ≤ (encodeUser u ++ trailing).length := by rw [happ]; simp
      omega⟩
  have hread : readValue (encodeUser u ++ trailing) = some (userValue u, trailing) := by
    rw [readValue, hg, read_encodeUser g 0 u trailing (by decide)]
  have hskip : skipSpace (encodeUser u ++ trailing) = encodeUser u ++ trailing := by
    rw [happ]; exact skipSpace_punct 123 _ (by simp)
  obtain ⟨c, r, hcr⟩ : ∃ c r, encodeUser u ++ trailing = c :: r := ⟨_, _, happ⟩
  have hstore : storeUser (userValue u)
      { user := { Username := "", Email := "" }, savedError := false }
      = { user := u, savedError := false } := rfl
  have htl : (String.mk (encodeUser u ++ trailing)).toList = encodeUser u ++ trailing := rfl
  simp only [Decode, htl, hskip, hread, hstore]
  rw [hcr]
  rfl

/-! ## The fuel of `readValue` is enough -/

/-- Skipping white space does not lengthen the input. -/
theorem skipSpace_length (cs : List Char) : (skipSpace cs).length ≤ cs.length := by
  induction cs with
  | nil => simp [skipSpace]
  | cons c r ih =>
    rw [skipSpace]
    split
    · exact Nat.le_succ_of_le ih
    · exact Nat.le_refl _

/-- A result of `consChar` comes from a result with the same remainder. -/
theorem consChar_eq_some (c : Char) (o : Option (List Char × List Char)) (s rest : List Char)
    (h : consChar c o = some (s, rest)) : ∃ s1, o = some (s1, rest) := by
  cases o with
  | none => simp [consChar] at h
  | some p =>
    obtain ⟨s1, r1⟩ := p
    simp only [consChar, Option.some.injEq, Prod.mk.injEq] at h
    exact ⟨s1, by rw [h.2]⟩

/-- A string literal that was read took at least its closing quote from the input. -/
theorem unquote_length (cs : List Char) :
    ∀ (skip : Nat) (s rest : List Char), unquote skip cs = some (s, rest) →
      rest.length < cs.length := by
  induction cs with
  | nil => intro skip s rest h; cases skip <;> simp [unquote] at h
  | cons c r ih =>
    intro skip s rest h
    cases skip with
    | succ k =>
      rw [unquote] at h
      exact Nat.lt_succ_of_lt (ih k s rest h)
    | zero =>
      rw [unquote] at h
      split at h
      · simp only [Option.some.injEq, Prod.mk.injEq] at h
        rw [← h.2]; exact Nat.lt_succ_self _
      · split at h
        · split at h
          · obtain ⟨s1, h1⟩ := consChar_eq_some _ _ _ _ h
            exact Nat.lt_succ_of_lt (ih _ s1 rest h1)
          · cases h
        · split at h
          · cases h
          · obtain ⟨s1, h1⟩ := consChar_eq_some _ _ _ _ h
            exact Nat.lt_succ_of_lt (ih _ s1 rest h1)

/-- Dropping leading digits does not lengthen the input. -/
theorem dropWhile_length (p : Char → Bool) (cs : List Char) :
    (cs.dropWhile p).length ≤ cs.length := by
  induction cs with
  | nil => simp
  | cons c r ih =>
    rw [List.dropWhile_cons]
    split
    · exact Nat.le_succ_of_le ih
    · exact Nat.le_refl _

/-- An exponent that was scanned does not lengthen the input. -/
theorem scanExp_length (cs rest : List Char) (h : scanExp cs = some rest) :
    rest.length ≤ cs.length := by
  unfold scanExp at h
  have hcs1 : ∀ cs1 : List Char, cs1.length ≤ cs.length →
      (match cs1 with
        | c :: r => if isDigit c = true then some (r.dropWhile isDigit) else none
        | [] => none) = some rest → rest.length ≤ cs.length := by
    intro cs1 hle h1
    cases cs1 with
    | nil => cases h1
    | cons c r =>
      simp only at h1
      split at h1
      · simp only [Option.some.injEq] at h1
        rw [← h1]
        have := dropWhile_length isDigit r
        simp only [List.length_cons] at hle
        omega
      · cases h1
  cases cs with
  | nil => exact hcs1 [] (Nat.le_refl _) h
  | cons c r =>
    by_cases hs : c.toNat = 43 ∨ c.toNat = 45
    · simp only [hs, if_true] at h
      exact hcs1 r (Nat.le_succ _) h
    · simp only [hs, if_false] at h
      exact hcs1 (c :: r) (Nat.le_refl _) h

/-- The rest of a number that was scanned does not lengthen the input. -/
theorem scanFrac_length (cs rest : List Char) (h : scanFrac cs = some rest) :
    rest.length ≤ cs.length := by
  unfold scanFrac at h
  cases cs with
  | nil => simp only [Option.some.injEq] at h; rw [← h]
  | cons c r =>
    simp only at h
    split at h
    · cases r with
      | nil => cases h
      | cons d r2 =>
        simp only at h
        split at h
        · have hd := dropWhile_length isDigit r2
          split at h
          · rename_i heq
            simp only [Option.some.injEq] at h
            rw [← h]; simp
          · rename_i e r3 heq
            rw [heq] at hd
            simp only [List.length_cons] at hd ⊢
            split at h
            · have := scanExp_length r3 rest h
              omega
            · simp only [Option.some.injEq] at h
              rw [← h]; simp only [List.length_cons]; omega
        · cases h
    · split at h
      · have := scanExp_length r rest h
        simp only [List.length_cons]; omega
      · simp only [Option.some.injEq] at h
        rw [← h]

/-- A number that was scanned took at least one character from the input. -/
theorem scanNumber_length (cs rest : List Char) (h : scanNumber cs = some rest) :
    rest.length < cs.length := by
  unfold scanNumber at h
  have hcs1 : ∀ cs1 : List Char, cs1.length ≤ cs.length →
      (match cs1 with
        | c :: r =>
          if c.toNat = 48 then scanFrac r
          else if isDigit c = true then scanFrac (r.dropWhile isDigit)
          else none
        | [] => none) = some rest → rest.length < cs.length := by
    intro cs1 hle h1
    cases cs1 with
    | nil => cases h1
    | cons c r =>
      simp only at h1
      simp only [List.length_cons] at hle
      split at h1
      · have := scanFrac_length r rest h1
        omega
      · split at h1
        · have := scanFrac_length _ rest h1
          have := dropWhile_length isDigit r
          omega
        · cases h1
  cases cs with
  | nil => exact hcs1 [] (Nat.le_refl _) h
  | cons c r =>
    by_cases hs : c.toNat = 45
    · simp only [hs, if_true] at h
      exact hcs1 r (Nat.le_succ _) h
    · simp only [hs, if_false] at h
      exact hcs1 (c :: r) (Nat.le_refl _) h

/-- A literal that was expected at the front of a non-empty input took a character. -/
theorem expect_length (lit : List Char) (c : Char) (r rest : List Char) (hlit : 0 < lit.length)
    (h : expect lit (c :: r) = some rest) : rest.length < (c :: r).length := by
  unfold expect at h
  split at h
  · simp only [Option.some.injEq] at h
    rw [← h, List.length_drop]
    simp only [List.length_cons]
    omega
  · cases h

/-- A value, an array element or an object member that was read took at least one
character from the input. -/
theorem read_length (f : Nat) :
    ∀ (d : Nat) (m : Mode) (cs : List Char) (v : JValue) (rest : List Char),
      read f d m cs = some (v, rest) → rest.length < cs.length := by
  induction f with
  | zero => intro d m cs v rest h; simp [read] at h
  | succ f ih =>
    intro d m cs v rest h
    cases m with
    | value =>
      rw [read] at h
      have hsk := skipSpace_length cs
      cases hcs : skipSpace cs with
      | nil => rw [hcs] at h; cases h
      | cons c r =>
        rw [hcs] at h hsk
        simp only [List.length_cons] at hsk
        simp only at h
        split at h
        · split at h
          · have hsk2 := skipSpace_length r
            cases hr : skipSpace r with
            | nil => rw [hr] at h; cases h
            | cons c2 r2 =>
              rw [hr] at h hsk2
              simp only [List.length_cons] at hsk2
              simp only at h
              split at h
              · simp only [Option.some.injEq, Prod.mk.injEq] at h
                rw [← h.2]; omega
              · have := ih _ _ _ _ _ h
                simp only [List.length_cons] at this
                omega
          · cases h
        · split at h
          · split at h
            · have hsk2 := skipSpace_length r
              cases hr : skipSpace r with
              | nil => rw [hr] at h; cases h
              | cons c2 r2 =>
                rw [hr] at h hsk2
                simp only [List.length_cons] at hsk2
                simp only at h
                split at h
                · simp only [Option.some.injEq, Prod.mk.injEq] at h
                  rw [← h.2]; omega
                · have := ih _ _ _ _ _ h
                  simp only [List.length_cons] at this
                  omega
            · cases h
          · split at h
            · cases hs : readString r with
              | none => rw [hs] at h; cases h
              | some p =>
                obtain ⟨s, rest1⟩ := p
                rw [hs] at h
                simp only [Option.some.injEq, Prod.mk.injEq] at h
                have := unquote_length r 0 s rest1 hs
                rw [← h.2]; omega
            · split at h
              · cases hn : scanNumber (c :: r) with
                | none => rw [hn] at h; cases h
                | some rest1 =>
                  rw [hn] at h
                  simp only [Option.some.injEq, Prod.mk.injEq] at h
                  have := scanNumber_length _ _ hn
                  simp only [List.length_cons] at this
                  rw [← h.2]; omega
              · split at h
                · cases hn : expect "true".toList (c :: r) with
                  | none => rw [hn] at h; cases h
                  | some rest1 =>
                    rw [hn] at h
                    simp only [Option.some.injEq, Prod.mk.injEq] at h
                    have := expect_length _ _ _ _ (by decide) hn
                    simp only [List.length_cons] at this
                    rw [← h.2]; omega
                · split at h
                  · cases hn : expect "false".toList (c :: r) with
                    | none => rw [hn] at h; cases h
                    | some rest1 =>
                      rw [hn] at h
                      simp only [Option.some.injEq, Prod.mk.injEq] at h
                      have := expect_length _ _ _ _ (by decide) hn
                      simp only [List.length_cons] at this
                      rw [← h.2]; omega
                  · split at h
                    · cases hn : expect "null".toList (c :: r) with
                      | none => rw [hn] at h; cases h
                      | some rest1 =>
                        rw [hn] at h
                        simp only [Option.some.injEq, Prod.mk.injEq] at h
                        have := expect_length _ _ _ _ (by decide) hn
                        simp only [List.length_cons] at this
                        rw [← h.2]; omega
                    · cases h
    | elems acc =>
      rw [read] at h
      cases hv : read f d Mode.value cs with
      | none => rw [hv] at h; cases h
      | some p =>
        obtain ⟨v1, rest1⟩ := p
        rw [hv] at h
        simp only at h
        have h1 := ih _ _ _ _ _ hv
        have hsk := skipSpace_length rest1
        cases hr : skipSpace rest1 with
        | nil => rw [hr] at h; cases h
        | cons c r =>
          rw [hr] at h hsk
          simp only [List.length_cons] at hsk
          simp only at h
          split at h
          · have := ih _ _ _ _ _ h
            omega
          · split at h
            · simp only [Option.some.injEq, Prod.mk.injEq] at h
              rw [← h.2]; omega
            · cases h
    | members acc =>
      rw [read] at h
      have hsk := skipSpace_length cs
      cases hcs : skipSpace cs with
      | nil => rw [hcs] at h; cases h
      | cons q r =>
        rw [hcs] at h hsk
        simp only [List.length_cons] at hsk
        simp only at h
        split at h
        · cases hs : readString r with
          | none => rw [hs] at h; cases h
          | some p =>
            obtain ⟨key, rest1⟩ := p
            rw [hs] at h
            simp only at h
            have hk := unquote_length r 0 key rest1 hs
            have hsk2 := skipSpace_length rest1
            cases hr : skipSpace rest1 with
            | nil => rw [hr] at h; cases h
            | cons colon r2 =>
              rw [hr] at h hsk2
              simp only [List.length_cons] at hsk2
              simp only at h
              split at h
              · cases hv : read f d Mode.value r2 with
                | none => rw [hv] at h; cases h
                | some p2 =>
                  obtain ⟨v1, rest2⟩ := p2
                  rw [hv] at h
                  simp only at h
                  have h1 := ih _ _ _ _ _ hv
                  have hsk3 := skipSpace_length rest2
                  cases hr3 : skipSpace rest2 with
                  | nil => rw [hr3] at h; cases h
                  | cons c r3 =>
                    rw [hr3] at h hsk3
                    simp only [List.length_cons] at hsk3
                    simp only at h
                    split at h
                    · have := ih _ _ _ _ _ h
                      omega
                    · split at h
                      · simp only [Option.some.injEq, Prod.mk.injEq] at h
                        rw [← h.2]; omega
                      · cases h
              · cases h
        · cases h

/-- Above `fuelBound` the fuel does not matter: `read` gives the same result. -/
theorem read_fuel (f : Nat) :
    ∀ (g d : Nat) (m : Mode) (cs : List Char), fuelBound m cs ≤ f → fuelBound m cs ≤ g →
      read f d m cs = read g d m cs := by
  induction f with
  | zero => intro g d m cs hf; cases m <;> simp [fuelBound] at hf
  | succ f ih =>
    intro g d m cs hf hg
    cases g with
    | zero => cases m <;> simp [fuelBound] at hg
    | succ g =>
      cases m with
      | value =>
        simp only [fuelBound] at hf hg
        rw [read, read]
        have hsk := skipSpace_length cs
        cases hcs : skipSpace cs with
        | nil => rfl
        | cons c r =>
          rw [hcs] at hsk
          simp only [List.length_cons] at hsk
          simp only
          have hsk2 := skipSpace_length r
          cases hr : skipSpace r with
          | nil => rfl
          | cons c2 r2 =>
            rw [hr] at hsk2
            simp only [List.length_cons] at hsk2
            have e1 : ∀ acc, read f (d + 1) (Mode.members acc) (c2 :: r2)
                = read g (d + 1) (Mode.members acc) (c2 :: r2) := fun acc =>
              ih g (d + 1) _ _ (by simp only [fuelBound, List.length_cons]; omega)
                (by simp only [fuelBound, List.length_cons]; omega)
            have e2 : ∀ acc, read f (d + 1) (Mode.elems acc) (c2 :: r2)
                = read g (d + 1) (Mode.elems acc) (c2 :: r2) := fun acc =>
              ih g (d + 1) _ _ (by simp only [fuelBound, List.length_cons]; omega)
                (by simp only [fuelBound, List.length_cons]; omega)
            simp only [e1, e2]
      | elems acc =>
        simp only [fuelBound] at hf hg
        rw [read, read]
        have e1 : read f d Mode.value cs = read g d Mode.value cs :=
          ih g d _ _ (by simp only [fuelBound]; omega) (by simp only [fuelBound]; omega)
        rw [e1]
        cases hv : read g d Mode.value cs with
        | none => rfl
        | some p =>
          obtain ⟨v1, rest1⟩ := p
          simp only
          have h1 := read_length g d _ _ _ _ hv
          have hsk := skipSpace_length rest1
          cases hr : skipSpace rest1 with
          | nil => rfl
          | cons c r =>
            rw [hr] at hsk
            simp only [List.length_cons] at hsk
            have e2 : read f d (Mode.elems (acc ++ [v1])) r
                = read g d (Mode.elems (acc ++ [v1])) r :=
              ih g d _ _ (by simp only [fuelBound]; omega) (by simp only [fuelBound]; omega)
            simp only [e2]
      | members acc =>
        simp only [fuelBound] at hf hg
        rw [read, read]
        have hsk := skipSpace_length cs
        cases hcs : skipSpace cs with
        | nil => rfl
        | cons q r =>
          rw [hcs] at hsk
          simp only [List.length_cons] at hsk
          simp only
          cases hs : readString r with
          | none => rfl
          | some p =>
            obtain ⟨key, rest1⟩ := p
            simp only
            have hk := unquote_length r 0 key rest1 hs
            have hsk2 := skipSpace_length rest1
            cases hr : skipSpace rest1 with
            | nil => rfl
            | cons colon r2 =>
              rw [hr] at hsk2
              simp only [List.length_cons] at hsk2
              simp only
              have e1 : read f d Mode.value r2 = read g d Mode.value r2 :=
                ih g d _ _ (by simp only [fuelBound]; omega) (by simp only [fuelBound]; omega)
              rw [e1]
              cases hv : read g d Mode.value r2 with
              | none => rfl
              | some p2 =>
                obtain ⟨v1, rest2⟩ := p2
                simp only
                have h1 := read_length g d _ _ _ _ hv
                have hsk3 := skipSpace_length rest2
                cases hr3 : skipSpace rest2 with
                | nil => rfl
                | cons c r3 =>
                  rw [hr3] at hsk3
                  simp only [List.length_cons] at hsk3
                  have e2 : read f d (Mode.members (acc ++ [(key, v1)])) r3
                      = read g d (Mode.members (acc ++ [(key, v1)])) r3 :=
                    ih g d _ _ (by simp only [fuelBound]; omega)
                      (by simp only [fuelBound]; omega)
                  simp only [e2]

/-- The fuel `readValue` gives `read` is enough: more fuel reads the same. -/
theorem readValue_fuel (body : List Char) (f : Nat) (hf : 2 * body.length + 2 ≤ f) :
    read f 0 Mode.value body = readValue body := by
  rw [readValue]
  exact read_fuel f _ 0 Mode.value body (by simp only [fuelBound]; omega)
    (by simp only [fuelBound]; omega)

/-! ## Bodies whose first value is not an object -/

/-- What is read as the elements of an array is an array. -/
theorem read_elems_arr (f : Nat) :
    ∀ (d : Nat) (acc : List JValue) (cs : List Char) (v : JValue) (rest : List Char),
      read f d (Mode.elems acc) cs = some (v, rest) → ∃ xs, v = JValue.arr xs := by
  induction f with
  | zero => intro d acc cs v rest h; simp [read] at h
  | succ f ih =>
    intro d acc cs v rest h
    rw [read] at h
    cases hv : read f d Mode.value cs with
    | none => rw [hv] at h; cases h
    | some p =>
      obtain ⟨v1, rest1⟩ := p
      rw [hv] at h
      simp only at h
      cases hr : skipSpace rest1 with
      | nil => rw [hr] at h; cases h
      | cons c r =>
        rw [hr] at h
        simp only at h
        split at h
        · exact ih _ _ _ _ _ h
        · split at h
          · simp only [Option.some.injEq, Prod.mk.injEq] at h
            exact ⟨_, h.1.symm⟩
          · cases h

/-- A value that does not start with an opening brace or with `n` and was read is an
array, a string, a number or a boolean: storing it into a `User` saves an error. -/
theorem read_value_savedError (f d : Nat) (cs : List Char) (c : Char) (r : List Char)
    (v : JValue) (rest : List Char) (st : DecodeState)
    (hcs : skipSpace cs = c :: r) (hobj : c.toNat ≠ 123) (hnull : c.toNat ≠ 110)
    (h : read f d Mode.value cs = some (v, rest)) :
    (storeUser v st).savedError = true := by
  cases f with
  | zero => simp [read] at h
  | succ f =>
    rw [read, hcs] at h
    simp only [hobj, hnull, if_false] at h
    split at h
    · split at h
      · cases hr : skipSpace r with
        | nil => rw [hr] at h; cases h
        | cons c2 r2 =>
          rw [hr] at h
          simp only at h
          split at h
          · simp only [Option.some.injEq, Prod.mk.injEq] at h
            rw [← h.1]; rfl
          · obtain ⟨xs, hxs⟩ := read_elems_arr _ _ _ _ _ _ h
            rw [hxs]; rfl
      · cases h
    · split at h
      · cases hs : readString r with
        | none => rw [hs] at h; cases h
        | some p =>
          rw [hs] at h
          simp only [Option.some.injEq, Prod.mk.injEq] at h
          rw [← h.1]; rfl
      · split at h
        · cases hn : scanNumber (c :: r) with
          | none => rw [hn] at h; cases h
          | some rest1 =>
            rw [hn] at h
            simp only [Option.some.injEq, Prod.mk.injEq] at h
            rw [← h.1]; rfl
        · split at h
          · cases hn : expect "true".toList (c :: r) with
            | none => rw [hn] at h; cases h
            | some rest1 =>
              rw [hn] at h
              simp only [Option.some.injEq, Prod.mk.injEq] at h
              rw [← h.1]; rfl
          · split at h
            · cases hn : expect "false".toList (c :: r) with
              | none => rw [hn] at h; cases h
              | some rest1 =>
                rw [hn] at h
                simp only [Option.some.injEq, Prod.mk.injEq] at h
                rw [← h.1]; rfl
            · cases h

/-- A body with nothing but white space, and a body whose first character after white
space is neither an opening brace nor `n`, make `Decode` return an error. -/
theorem Decode_error_of_first (body : String)
    (h : skipSpace body.toList = []
      ∨ ∃ c r, skipSpace body.toList = c :: r ∧ c.toNat ≠ 123 ∧ c.toNat ≠ 110) :
    ∃ err, Decode body = Except.error err := by
  rcases h with h | ⟨c, r, hcs, hobj, hnull⟩
  · exact ⟨DecodeError.eof, by simp only [Decode, h]⟩
  · simp only [Decode, hcs]
    cases hv : readValue body.toList with
    | none => exact ⟨DecodeError.syntaxError, rfl⟩
    | some p =>
      obtain ⟨v, rest⟩ := p
      have hsaved := read_value_savedError _ 0 _ c r v rest
        { user := { Username := "", Email := "" }, savedError := false } hcs hobj hnull hv
      exact ⟨DecodeError.unmarshalTypeError, by simp only [hsaved, if_true]⟩

/-! ## Which bodies `Decode` rejects -/

/-- Storing a member saves an error exactly when the value does not fit a string. -/
theorem storeField_savedError (f : Field) (v : JValue) (st : DecodeState) :
    (storeField f v st).savedError = (st.savedError || !fitsString v) := by
  cases v <;> cases f <;> simp [storeField, fitsString]

/-- Storing the members of an object saves an error exactly when some member whose key
names a field holds a value that does not fit a string. -/
theorem storeMembers_savedError (kvs : List (List Char × JValue)) :
    ∀ st : DecodeState,
      (storeMembers kvs st).savedError
        = (st.savedError
            || !kvs.all (fun kv => (lookupField kv.1).isNone || fitsString kv.2)) := by
  induction kvs with
  | nil => intro st; simp [storeMembers]
  | cons kv rest ih =>
    intro st
    obtain ⟨key, v⟩ := kv
    rw [storeMembers]
    cases hk : lookupField key with
    | none => simp [ih, hk]
    | some f =>
      simp only [ih, storeField_savedError, hk, List.all_cons, Option.isNone_some,
        Bool.false_or]
      cases st.savedError <;> cases fitsString v <;> simp

/-- Storing a first value into the zero `User` saves an error exactly when the value
has not the expected shape. -/
theorem storeUser_savedError (v : JValue) (u : User) :
    (storeUser v { user := u, savedError := false }).savedError = !expectedShape v := by
  cases v <;> simp [storeUser, expectedShape, storeMembers_savedError]

/-- Nothing is read from a blank input. -/
theorem read_blank (f d : Nat) (cs : List Char) (h : skipSpace cs = []) :
    read f d Mode.value cs = none := by
  cases f with
  | zero => rfl
  | succ f => rw [read, h]

/-- The first value of an input is read after its leading white space only if there
is any input left. -/
theorem readValue_blank (cs : List Char) (h : skipSpace cs = []) : readValue cs = none :=
  read_blank _ _ _ h

/-- Decode returns an error exactly on the rejected bodies. -/
theorem Decode_error_iff (body : String) :
    (∃ err, Decode body = Except.error err) ↔ rejected body = true := by
  unfold Decode rejected
  cases hsk : skipSpace body.toList with
  | nil =>
    rw [readValue_blank _ hsk]
    simp
  | cons c r =>
    simp only
    cases hv : readValue body.toList with
    | none => simp
    | some p =>
      obtain ⟨v, rest⟩ := p
      simp only [storeUser_savedError]
      cases expectedShape v <;> simp

/-- On a body that is not rejected `Decode` returns a `User`. -/
theorem Decode_ok_of_not_rejected (body : String) (h : rejected body = false) :
    ∃ u, Decode body = Except.ok u := by
  cases hd : Decode body with
  | ok u => exact ⟨u, rfl⟩
  | error err =>
    have := (Decode_error_iff body).1 ⟨err, hd⟩
    rw [h] at this
    cases this

/-! ## What follows the first value is not read -/

/-- White space is skipped the same way whatever follows the first other character. -/
theorem skipSpace_append (cs : List Char) (c : Char) (r t : List Char)
    (h : skipSpace cs = c :: r) : skipSpace (cs ++ t) = c :: (r ++ t) := by
  induction cs with
  | nil => simp [skipSpace] at h
  | cons a l ih =>
    rw [skipSpace] at h
    rw [List.cons_append, skipSpace]
    split
    · rename_i hsp
      rw [if_pos hsp] at h
      exact ih h
    · rename_i hsp
      rw [if_neg hsp] at h
      cases h; rfl

/-- An escape `\uXXXX` found at the front is found whatever follows. -/
theorem getu4_append_some (r3 t : List Char) (n : Nat) (h : getu4 r3 = some n) :
    getu4 (r3 ++ t) = some n := by
  rcases r3 with _ | ⟨b, _ | ⟨u, _ | ⟨k1, _ | ⟨k2, _ | ⟨k3, _ | ⟨k4, r4⟩⟩⟩⟩⟩⟩ <;>
    simp [getu4] at h ⊢
  exact h

/-- No escape `\uXXXX` starts with a character other than a backslash. -/
theorem getu4_head (b : Char) (l : List Char) (hb : b.toNat ≠ 92) : getu4 (b :: l) = none := by
  rcases l with _ | ⟨u, _ | ⟨k1, _ | ⟨k2, _ | ⟨k3, _ | ⟨k4, r4⟩⟩⟩⟩⟩ <;> simp [getu4, hb]

/-- No escape `\uXXXX` has a second character other than `u`. -/
theorem getu4_second (b u : Char) (l : List Char) (hu : u.toNat ≠ 117) :
    getu4 (b :: u :: l) = none := by
  rcases l with _ | ⟨k1, _ | ⟨k2, _ | ⟨k3, _ | ⟨k4, r4⟩⟩⟩⟩ <;> simp [getu4, hu]

/-- Where the rest of a string literal can be read and no escape `\uXXXX` is at the
front, none is there whatever follows the literal. -/
theorem getu4_append_none (r3 t : List Char) (x : List Char × List Char)
    (h : getu4 r3 = none) (hq : unquote 0 r3 = some x) : getu4 (r3 ++ t) = none := by
  cases r3 with
  | nil => simp [unquote] at hq
  | cons b l =>
    by_cases hb : b.toNat = 92
    · cases l with
      | nil =>
        rw [unquote] at hq
        simp [hb, readEscape] at hq
      | cons u l2 =>
        by_cases hu : u.toNat = 117
        · rcases l2 with _ | ⟨k1, _ | ⟨k2, _ | ⟨k3, _ | ⟨k4, r4⟩⟩⟩⟩
          · rw [unquote] at hq; simp [hb, hu, readEscape] at hq
          · rw [unquote] at hq; simp [hb, hu, readEscape] at hq
          · rw [unquote] at hq; simp [hb, hu, readEscape] at hq
          · rw [unquote] at hq; simp [hb, hu, readEscape] at hq
          · simp only [getu4, hb, hu, and_self, if_true] at h
            simp only [List.cons_append, getu4, hb, hu, and_self, if_true]
            exact h
        · exact getu4_second b u _ hu
    · exact getu4_head b _ hb

/-- An escape inside a string literal that can be read to its end stands for the same
character and takes as many characters whatever follows the literal. -/
theorem readEscape_append (r t : List Char) (ch : Char) (k : Nat) (x : List Char × List Char)
    (h : readEscape r = some (ch, k)) (hq : unquote k r = some x) :
    readEscape (r ++ t) = some (ch, k) := by
  cases r with
  | nil => simp [readEscape] at h
  | cons e r2 =>
    by_cases he : e.toNat = 117
    · rcases r2 with _ | ⟨h1, _ | ⟨h2, _ | ⟨h3, _ | ⟨h4, r3⟩⟩⟩⟩
      · simp [readEscape, he] at h
      · simp [readEscape, he] at h
      · simp [readEscape, he] at h
      · simp [readEscape, he] at h
      · simp only [readEscape, he, if_true, List.cons_append] at h ⊢
        cases hx : hex4 h1 h2 h3 h4 with
        | none => rw [hx] at h; cases h
        | some rr =>
          rw [hx] at h
          simp only at h ⊢
          by_cases hs : isSurrogate rr = true
          · rw [if_pos hs] at h
            rw [if_pos hs]
            cases hg : getu4 r3 with
            | none =>
              rw [hg] at h
              simp only [Option.some.injEq, Prod.mk.injEq] at h
              have hq0 : unquote 0 r3 = some x := by
                rw [← h.2] at hq
                simpa [unquote] using hq
              rw [getu4_append_none r3 t x hg hq0]
              simp only [Option.some.injEq, Prod.mk.injEq]
              exact h
            | some rr1 =>
              rw [hg] at h
              rw [getu4_append_some r3 t rr1 hg]
              exact h
          · rw [if_neg hs] at h
            rw [if_neg hs]
            exact h
    · simp only [readEscape, he, if_false, List.cons_append] at h ⊢
      exact h

/-- A string literal is read the same way whatever follows its closing quote. -/
theorem unquote_append (cs : List Char) :
    ∀ (k : Nat) (s rest t : List Char), unquote k cs = some (s, rest) →
      unquote k (cs ++ t) = some (s, rest ++ t) := by
  induction cs with
  | nil => intro k s rest t h; cases k <;> simp [unquote] at h
  | cons c r ih =>
    intro k s rest t h
    cases k with
    | succ k =>
      rw [unquote] at h
      rw [List.cons_append, unquote]
      exact ih k s rest t h
    | zero =>
      rw [unquote] at h
      rw [List.cons_append, unquote]
      by_cases h34 : c.toNat = 34
      · rw [if_pos h34] at h
        rw [if_pos h34]
        simp only [Option.some.injEq, Prod.mk.injEq] at h
        rw [← h.1, ← h.2]
      · rw [if_neg h34] at h
        rw [if_neg h34]
        by_cases h92 : c.toNat = 92
        · rw [if_pos h92] at h
          rw [if_pos h92]
          cases he : readEscape r with
          | none => rw [he] at h; cases h
          | some p =>
            obtain ⟨ch, k2⟩ := p
            rw [he] at h
            simp only at h
            cases hq : unquote k2 r with
            | none => rw [hq] at h; simp [consChar] at h
            | some x =>
              obtain ⟨s1, rest1⟩ := x
              rw [hq] at h
              simp only [consChar, Option.some.injEq, Prod.mk.injEq] at h
              rw [readEscape_append r t ch k2 _ he hq]
              simp only
              rw [ih k2 s1 rest1 t hq]
              simp only [consChar, Option.some.injEq, Prod.mk.injEq]
              exact ⟨h.1, by rw [h.2]⟩
        · rw [if_neg h92] at h
          rw [if_neg h92]
          by_cases h32 : c.toNat < 32
          · rw [if_pos h32] at h; cases h
          · rw [if_neg h32] at h
            rw [if_neg h32]
            cases hq : unquote 0 r with
            | none => rw [hq] at h; simp [consChar] at h
            | some x =>
              obtain ⟨s1, rest1⟩ := x
              rw [hq] at h
              simp only [consChar, Option.some.injEq, Prod.mk.injEq] at h
              rw [ih 0 s1 rest1 t hq]
              simp only [consChar, Option.some.injEq, Prod.mk.injEq]
              exact ⟨h.1, by rw [h.2]⟩

/-- Leading digits are dropped the same way whatever follows the first other
character. -/
theorem dropWhile_append_cons (p : Char → Bool) (cs : List Char) (c : Char) (r t : List Char)
    (h : cs.dropWhile p = c :: r) : (cs ++ t).dropWhile p = c :: (r ++ t) := by
  induction cs with
  | nil => simp at h
  | cons a l ih =>
    rw [List.dropWhile_cons] at h
    rw [List.cons_append, List.dropWhile_cons]
    by_cases hp : p a = true
    · rw [if_pos hp] at h
      rw [if_pos hp]
      exact ih h
    · rw [if_neg hp] at h
      rw [if_neg hp]
      cases h; rfl

/-- An exponent that ends before the end of the input is scanned the same way whatever
follows. -/
theorem scanExp_append (cs rest t : List Char) (h : scanExp cs = some rest) (hne : rest ≠ []) :
    scanExp (cs ++ t) = some (rest ++ t) := by
  have hdigits : ∀ cs1 : List Char,
      (match cs1 with
        | c :: r => if isDigit c = true then some (r.dropWhile isDigit) else none
        | [] => none) = some rest →
      (match cs1 ++ t with
        | c :: r => if isDigit c = true then some (r.dropWhile isDigit) else none
        | [] => none) = some (rest ++ t) := by
    intro cs1 h1
    cases cs1 with
    | nil => cases h1
    | cons c r =>
      simp only [List.cons_append] at h1 ⊢
      by_cases hd : isDigit c = true
      · rw [if_pos hd] at h1
        rw [if_pos hd]
        simp only [Option.some.injEq] at h1
        cases rest with
        | nil => exact absurd rfl hne
        | cons a l => rw [dropWhile_append_cons isDigit r a l t h1]; rfl
      · rw [if_neg hd] at h1; cases h1
  unfold scanExp at h ⊢
  cases cs with
  | nil => simp at h
  | cons c r =>
    by_cases hs : c.toNat = 43 ∨ c.toNat = 45
    · simp only [hs, if_true, List.cons_append] at h ⊢
      exact hdigits r h
    · simp only [hs, if_false, List.cons_append] at h ⊢
      exact hdigits (c :: r) h

/-- What follows the integer part of a number and ends before the end of the input is
scanned the same way whatever follows. -/
theorem scanFrac_append (cs rest t : List Char) (h : scanFrac cs = some rest) (hne : rest ≠ []) :
    scanFrac (cs ++ t) = some (rest ++ t) := by
  unfold scanFrac at h ⊢
  cases cs with
  | nil =>
    simp only [Option.some.injEq] at h
    exact absurd h.symm hne
  | cons c r =>
    simp only [List.cons_append] at h ⊢
    by_cases hdot : c.toNat = 46
    · rw [if_pos hdot] at h
      rw [if_pos hdot]
      cases r with
      | nil => cases h
      | cons d r2 =>
        simp only [List.cons_append] at h ⊢
        by_cases hd : isDigit d = true
        · rw [if_pos hd] at h
          rw [if_pos hd]
          cases hdw : r2.dropWhile isDigit with
          | nil =>
            rw [hdw] at h
            simp only [Option.some.injEq] at h
            exact absurd h.symm hne
          | cons e r3 =>
            rw [hdw] at h
            rw [dropWhile_append_cons isDigit r2 e r3 t hdw]
            simp only at h ⊢
            by_cases hexp : e.toNat = 101 ∨ e.toNat = 69
            · rw [if_pos hexp] at h
              rw [if_pos hexp]
              exact scanExp_append r3 rest t h hne
            · rw [if_neg hexp] at h
              rw [if_neg hexp]
              simp only [Option.some.injEq] at h
              rw [← h]; rfl
        · rw [if_neg hd] at h; cases h
    · rw [if_neg hdot] at h
      rw [if_neg hdot]
      by_cases hexp : c.toNat = 101 ∨ c.toNat = 69
      · rw [if_pos hexp] at h
        rw [if_pos hexp]
        exact scanExp_append r rest t h hne
      · rw [if_neg hexp] at h
        rw [if_neg hexp]
        simp only [Option.some.injEq] at h
        rw [← h]; rfl

/-- A number that ends before the end of the input is scanned the same way whatever
follows. -/
theorem scanNumber_append (cs rest t : List Char) (h : scanNumber cs = some rest)
    (hne : rest ≠ []) : scanNumber (cs ++ t) = some (rest ++ t) := by
  have hint : ∀ cs1 : List Char,
      (match cs1 with
        | c :: r =>
          if c.toNat = 48 then scanFrac r
          else if isDigit c = true then scanFrac (r.dropWhile isDigit)
          else none
        | [] => none) = some rest →
      (match cs1 ++ t with
        | c :: r =>
          if c.toNat = 48 then scanFrac r
          else if isDigit c = true then scanFrac (r.dropWhile isDigit)
          else none
        | [] => none) = some (rest ++ t) := by
    intro cs1 h1
    cases cs1 with
    | nil => cases h1
    | cons c r =>
      simp only [List.cons_append] at h1 ⊢
      by_cases h0 : c.toNat = 48
      · rw [if_pos h0] at h1
        rw [if_pos h0]
        exact scanFrac_append r rest t h1 hne
      · rw [if_neg h0] at h1
        rw [if_neg h0]
        by_cases hd : isDigit c = true
        · rw [if_pos hd] at h1
          rw [if_pos hd]
          cases hdw : r.dropWhile isDigit with
          | nil =>
            rw [hdw] at h1
            simp only [scanFrac, Option.some.injEq] at h1
            exact absurd h1.symm hne
          | cons e r3 =>
            rw [hdw] at h1
            rw [dropWhile_append_cons isDigit r e r3 t hdw]
            exact scanFrac_append (e :: r3) rest t h1 hne
        · rw [if_neg hd] at h1; cases h1
  unfold scanNumber at h ⊢
  cases cs with
  | nil => simp at h
  | cons c r =>
    by_cases hs : c.toNat = 45
    · simp only [hs, if_true, List.cons_append] at h ⊢
      exact hint r h
    · simp only [hs, if_false, List.cons_append] at h ⊢
      exact hint (c :: r) h

/-- A literal found at the front of the input is found whatever follows. -/
theorem expect_append (lit cs rest t : List Char) (h : expect lit cs = some rest) :
    expect lit (cs ++ t) = some (rest ++ t) := by
  unfold expect at h ⊢
  by_cases hp : lit.isPrefixOf cs = true
  · rw [if_pos hp] at h
    simp only [Option.some.injEq] at h
    obtain ⟨r, hr⟩ := List.isPrefixOf_iff_prefix.1 hp
    have hp2 : lit.isPrefixOf (cs ++ t) = true :=
      List.isPrefixOf_iff_prefix.2 ⟨r ++ t, by rw [← hr, List.append_assoc]⟩
    rw [if_pos hp2]
    rw [← h, ← hr]
    simp
  · rw [if_neg hp] at h; cases h

/-- A value, an array element or an object member is read the same way with more fuel
and whatever follows it, provided that a number read as a value ends before the end of
the input. -/
theorem read_append (f : Nat) :
    ∀ (g d : Nat) (m : Mode) (cs : List Char) (v : JValue) (rest t : List Char),
      read f d m cs = some (v, rest) → f ≤ g →
      (m = Mode.value → v = JValue.num → rest ≠ []) →
      read g d m (cs ++ t) = some (v, rest ++ t) := by
  induction f with
  | zero => intro g d m cs v rest t h; simp [read] at h
  | succ f ih =>
    intro g d m cs v rest t h hfg hnum
    obtain ⟨g, rfl⟩ : ∃ g1, g = g1 + 1 := ⟨g - 1, by omega⟩
    have hfg1 : f ≤ g := by omega
    cases m with
    | value =>
      rw [read] at h
      cases hcs : skipSpace cs with
      | nil => rw [hcs] at h; cases h
      | cons c r =>
        rw [hcs] at h
        rw [read, skipSpace_append cs c r t hcs]
        simp only at h ⊢
        by_cases h123 : c.toNat = 123
        · rw [if_pos h123] at h
          rw [if_pos h123]
          by_cases hd : d + 1 ≤ maxNestingDepth
          · rw [if_pos hd] at h
            rw [if_pos hd]
            cases hr : skipSpace r with
            | nil => rw [hr] at h; cases h
            | cons c2 r2 =>
              rw [hr] at h
              rw [skipSpace_append r c2 r2 t hr]
              simp only at h ⊢
              by_cases h125 : c2.toNat = 125
              · rw [if_pos h125] at h
                rw [if_pos h125]
                simp only [Option.some.injEq, Prod.mk.injEq] at h ⊢
                exact ⟨h.1, by rw [h.2]⟩
              · rw [if_neg h125] at h
                rw [if_neg h125]
                exact ih g (d + 1) _ (c2 :: r2) v rest t h hfg1 (fun hm => by cases hm)
          · rw [if_neg hd] at h; cases h
        · rw [if_neg h123] at h
          rw [if_neg h123]
          by_cases h91 : c.toNat = 91
          · rw [if_pos h91] at h
            rw [if_pos h91]
            by_cases hd : d + 1 ≤ maxNestingDepth
            · rw [if_pos hd] at h
              rw [if_pos hd]
              cases hr : skipSpace r with
              | nil => rw [hr] at h; cases h
              | cons c2 r2 =>
                rw [hr] at h
                rw [skipSpace_append r c2 r2 t hr]
                simp only at h ⊢
                by_cases h93 : c2.toNat = 93
                · rw [if_pos h93] at h
                  rw [if_pos h93]
                  simp only [Option.some.injEq, Prod.mk.injEq] at h ⊢
                  exact ⟨h.1, by rw [h.2]⟩
                · rw [if_neg h93] at h
                  rw [if_neg h93]
                  exact ih g (d + 1) _ (c2 :: r2) v rest t h hfg1 (fun hm => by cases hm)
            · rw [if_neg hd] at h; cases h
          · rw [if_neg h91] at h
            rw [if_neg h91]
            by_cases h34 : c.toNat = 34
            · rw [if_pos h34] at h
              rw [if_pos h34]
              cases hs : readString r with
              | none => rw [hs] at h; cases h
              | some p =>
                obtain ⟨s, rest1⟩ := p
                rw [hs] at h
                have hs2 : readString (r ++ t) = some (s, rest1 ++ t) :=
                  unquote_append r 0 s rest1 t hs
                rw [hs2]
                simp only [Option.some.injEq, Prod.mk.injEq] at h ⊢
                exact ⟨h.1, by rw [h.2]⟩
            · rw [if_neg h34] at h
              rw [if_neg h34]
              by_cases hn : c.toNat = 45 ∨ isDigit c = true
              · rw [if_pos hn] at h
                rw [if_pos hn]
                cases hs : scanNumber (c :: r) with
                | none => rw [hs] at h; cases h
                | some rest1 =>
                  rw [hs] at h
                  simp only [Option.some.injEq, Prod.mk.injEq] at h
                  have hne : rest1 ≠ [] := by
                    rw [h.2]; exact hnum rfl h.1.symm
                  have hs2 : scanNumber (c :: (r ++ t)) = some (rest1 ++ t) :=
                    scanNumber_append (c :: r) rest1 t hs hne
                  rw [hs2]
                  simp only [Option.some.injEq, Prod.mk.injEq]
                  exact ⟨h.1, by rw [h.2]⟩
              · rw [if_neg hn] at h
                rw [if_neg hn]
                by_cases h116 : c.toNat = 116
                · rw [if_pos h116] at h
                  rw [if_pos h116]
                  cases hs : expect "true".toList (c :: r) with
                  | none => rw [hs] at h; cases h
                  | some rest1 =>
                    rw [hs] at h
                    have hs2 : expect "true".toList (c :: (r ++ t)) = some (rest1 ++ t) :=
                      expect_append _ (c :: r) rest1 t hs
                    rw [hs2]
                    simp only [Option.some.injEq, Prod.mk.injEq] at h ⊢
                    exact ⟨h.1, by rw [h.2]⟩
                · rw [if_neg h116] at h
                  rw [if_neg h116]
                  by_cases h102 : c.toNat = 102
                  · rw [if_pos h102] at h
                    rw [if_pos h102]
                    cases hs : expect "false".toList (c :: r) with
                    | none => rw [hs] at h; cases h
                    | some rest1 =>
                      rw [hs] at h
                      have hs2 : expect "false".toList (c :: (r ++ t)) = some (rest1 ++ t) :=
                        expect_append _ (c :: r) rest1 t hs
                      rw [hs2]
                      simp only [Option.some.injEq, Prod.mk.injEq] at h ⊢
                      exact ⟨h.1, by rw [h.2]⟩
                  · rw [if_neg h102] at h
                    rw [if_neg h102]
                    by_cases h110 : c.toNat = 110
                    · rw [if_pos h110] at h
                      rw [if_pos h110]
                      cases hs : expect "null".toList (c :: r) with
                      | none => rw [hs] at h; cases h
                      | some rest1 =>
                        rw [hs] at h
                        have hs2 : expect "null".toList (c :: (r ++ t)) = some (rest1 ++ t) :=
                          expect_append _ (c :: r) rest1 t hs
                        rw [hs2]
                        simp only [Option.some.injEq, Prod.mk.injEq] at h ⊢
                        exact ⟨h.1, by rw [h.2]⟩
                    · rw [if_neg h110] at h; cases h
    | elems acc =>
      rw [read] at h
      rw [read]
      cases hv : read f d Mode.value cs with
      | none => rw [hv] at h; cases h
      | some p =>
        obtain ⟨v1, rest1⟩ := p
        rw [hv] at h
        simp only at h
        cases hr : skipSpace rest1 with
        | nil => rw [hr] at h; cases h
        | cons c r =>
          rw [hr] at h
          have hne : rest1 ≠ [] := by
            intro h0; rw [h0] at hr; simp [skipSpace] at hr
          rw [ih g d Mode.value cs v1 rest1 t hv hfg1 (fun _ _ => hne)]
          simp only at h ⊢
          rw [skipSpace_append rest1 c r t hr]
          simp only
          by_cases h44 : c.toNat = 44
          · rw [if_pos h44] at h
            rw [if_pos h44]
            exact ih g d _ r v rest t h hfg1 (fun hm => by cases hm)
          · rw [if_neg h44] at h
            rw [if_neg h44]
            by_cases h93 : c.toNat = 93
            · rw [if_pos h93] at h
              rw [if_pos h93]
              simp only [Option.some.injEq, Prod.mk.injEq] at h ⊢
              exact ⟨h.1, by rw [h.2]⟩
            · rw [if_neg h93] at h; cases h
    | members acc =>
      rw [read] at h
      cases hcs : skipSpace cs with
      | nil => rw [hcs] at h; cases h
      | cons q r =>
        rw [hcs] at h
        rw [read, skipSpace_append cs q r t hcs]
        simp only at h ⊢
        by_cases h34 : q.toNat = 34
        · rw [if_pos h34] at h
          rw [if_pos h34]
          cases hs : readString r with
          | none => rw [hs] at h; cases h
          | some p =>
            obtain ⟨key, rest1⟩ := p
            rw [hs] at h
            have hs2 : readString (r ++ t) = some (key, rest1 ++ t) :=
              unquote_append r 0 key rest1 t hs
            rw [hs2]
            simp only at h ⊢
            cases hr : skipSpace rest1 with
            | nil => rw [hr] at h; cases h
            | cons colon r2 =>
              rw [hr] at h
              rw [skipSpace_append rest1 colon r2 t hr]
              simp only at h ⊢
              by_cases h58 : colon.toNat = 58
              · rw [if_pos h58] at h
                rw [if_pos h58]
                cases hv : read f d Mode.value r2 with
                | none => rw [hv] at h; cases h
                | some p2 =>
                  obtain ⟨v1, rest2⟩ := p2
                  rw [hv] at h
                  simp only at h
                  cases hr3 : skipSpace rest2 with
                  | nil => rw [hr3] at h; cases h
                  | cons c r3 =>
                    rw [hr3] at h
                    have hne : rest2 ≠ [] := by
                      intro h0; rw [h0] at hr3; simp [skipSpace] at hr3
                    rw [ih g d Mode.value r2 v1 rest2 t hv hfg1 (fun _ _ => hne)]
                    simp only at h ⊢
                    rw [skipSpace_append rest2 c r3 t hr3]
                    simp only
                    by_cases h44 : c.toNat = 44
                    · rw [if_pos h44] at h
                      rw [if_pos h44]
                      exact ih g d _ r3 v rest t h hfg1 (fun hm => by cases hm)
                    · rw [if_neg h44] at h
                      rw [if_neg h44]
                      by_cases h125 : c.toNat = 125
                      · rw [if_pos h125] at h
                        rw [if_pos h125]
                        simp only [Option.some.injEq, Prod.mk.injEq] at h ⊢
                        exact ⟨h.1, by rw [h.2]⟩
                      · rw [if_neg h125] at h; cases h
              · rw [if_neg h58] at h; cases h
        · rw [if_neg h34] at h; cases h

/-- What is read as the members of an object is an object. -/
theorem read_members_obj (f : Nat) :
    ∀ (d : Nat) (acc : List (List Char × JValue)) (cs : List Char) (v : JValue)
      (rest : List Char),
      read f d (Mode.members acc) cs = some (v, rest) → ∃ kvs, v = JValue.obj kvs := by
  induction f with
  | zero => intro d acc cs v rest h; simp [read] at h
  | succ f ih =>
    intro d acc cs v rest h
    rw [read] at h
    cases hcs : skipSpace cs with
    | nil => rw [hcs] at h; cases h
    | cons q r =>
      rw [hcs] at h
      simp only at h
      split at h
      · cases hs : readString r with
        | none => rw [hs] at h; cases h
        | some p =>
          obtain ⟨key, rest1⟩ := p
          rw [hs] at h
          simp only at h
          cases hr : skipSpace rest1 with
          | nil => rw [hr] at h; cases h
          | cons colon r2 =>
            rw [hr] at h
            simp only at h
            split at h
            · cases hv : read f d Mode.value r2 with
              | none => rw [hv] at h; cases h
              | some p2 =>
                obtain ⟨v1, rest2⟩ := p2
                rw [hv] at h
                simp only at h
                cases hr3 : skipSpace rest2 with
                | nil => rw [hr3] at h; cases h
                | cons c r3 =>
                  rw [hr3] at h
                  simp only at h
                  split at h
                  · exact ih _ _ _ _ _ h
                  · split at h
                    · simp only [Option.some.injEq, Prod.mk.injEq] at h
                      exact ⟨_, h.1.symm⟩
                    · cases h
            · cases h
      · cases h

/-- A value that starts with an opening brace and was read is an object. -/
theorem read_value_obj (f d : Nat) (cs : List Char) (c : Char) (r : List Char) (v : JValue)
    (rest : List Char) (hcs : skipSpace cs = c :: r) (hc : c.toNat = 123)
    (h : read f d Mode.value cs = some (v, rest)) : ∃ kvs, v = JValue.obj kvs := by
  cases f with
  | zero => simp [read] at h
  | succ f =>
    rw [read, hcs] at h
    simp only [hc, if_true] at h
    split at h
    · cases hr : skipSpace r with
      | nil => rw [hr] at h; cases h
      | cons c2 r2 =>
        rw [hr] at h
        simp only at h
        split at h
        · simp only [Option.some.injEq, Prod.mk.injEq] at h
          exact ⟨_, h.1.symm⟩
        · exact read_members_obj _ _ _ _ _ _ h
    · cases h

/-- The first value of a body is its first value whatever is appended to the body,
unless it is a number that runs to the end of the body. -/
theorem readValue_append (b : List Char) (v : JValue) (rest t : List Char)
    (h : readValue b = some (v, rest)) (hnum : v = JValue.num → rest ≠ []) :
    readValue (b ++ t) = some (v, rest ++ t) := by
  unfold readValue at h ⊢
  exact read_append _ _ 0 Mode.value b v rest t h
    (by simp only [List.length_append]; omega) (fun _ => hnum)

/-- Decode gives the same whatever is appended to a body with a first value, unless
that value is a number that runs to the end of the body. -/
theorem Decode_append (body : String) (v : JValue) (rest t : List Char)
    (h : readValue body.toList = some (v, rest)) (hnum : v = JValue.num → rest ≠ []) :
    Decode (String.mk (body.toList ++ t)) = Decode body := by
  have htl : (String.mk (body.toList ++ t)).toList = body.toList ++ t := rfl
  cases hsk : skipSpace body.toList with
  | nil => rw [readValue_blank _ hsk] at h; cases h
  | cons c r =>
    simp only [Decode, htl, skipSpace_append _ c r t hsk, hsk,
      readValue_append _ v rest t h hnum, h]

/-- A body that starts with an opening brace and stops before the object is closed has
no first value: if with a continuation the first value ends inside the continuation,
nothing is read from the body alone. -/
theorem readValue_cut_off (b t : List Char) (c : Char) (r : List Char) (v : JValue)
    (rest : List Char) (hb : skipSpace b = c :: r) (hc : c.toNat = 123)
    (h : readValue (b ++ t) = some (v, rest)) (hlen : rest.length < t.length) :
    readValue b = none := by
  cases hv : readValue b with
  | none => rfl
  | some p =>
    obtain ⟨v1, rest1⟩ := p
    obtain ⟨kvs, hkvs⟩ := read_value_obj _ 0 b c r v1 rest1 hb hc hv
    have := readValue_append b v1 rest1 t hv (fun hn => by rw [hkvs] at hn; cases hn)
    rw [h] at this
    simp only [Option.some.injEq, Prod.mk.injEq] at this
    rw [this.2, List.length_append] at hlen
    omega

/-- A body whose first value is an object with a member that names a field and holds
neither a string nor `null` is rejected. -/
theorem rejected_of_wrong_type (body : String) (kvs : List (List Char × JValue))
    (rest key : List Char) (val : JValue)
    (h : readValue body.toList = some (JValue.obj kvs, rest)) (hmem : (key, val) ∈ kvs)
    (hkey : (lookupField key).isSome = true) (hval : fitsString val = false) :
    rejected body = true := by
  unfold rejected
  rw [h]
  simp only [expectedShape, Bool.not_eq_true', List.all_eq_false]
  refine ⟨(key, val), hmem, ?_⟩
  cases hk : lookupField key with
  | none => rw [hk] at hkey; cases hkey
  | some f => simp [hval]

end json

/-! ## Properties of the handlers -/

namespace handlers

open http db

/-- Appending to the empty string gives the string. -/
theorem empty_append_string (s : String) : "" ++ s = s := by
  apply String.ext; simp

/-- What `http.Error` leaves on a fresh writer. -/
theorem Error_fresh (msg : String) (code : Nat) :
    Error ResponseWriter.fresh msg code =
      { header := [("Content-Type", "text/plain; charset=utf-8"),
                   ("X-Content-Type-Options", "nosniff")],
        status := some code, body := msg ++ "\n" } := by
  simp [Error, ResponseWriter.fresh, ResponseWriter.Del, ResponseWriter.Set,
    ResponseWriter.WriteHeader, ResponseWriter.Write]

/-- The outcome of a POST to `HandlerRegister` whose body decodes to non-empty fields
and whose INSERT succeeds. -/
theorem HandlerRegister_created (t : Table) (body u e : String)
    (hdec : json.Decode body = Except.ok { Username := u, Email := e })
    (hu : u ≠ "") (he : e ≠ "") :
    HandlerRegister ResponseWriter.fresh { Method := MethodPost, Body := body } t none
      = { w := { header := [], status := some 201, body := "" },
          users := t ++ [{ Username := u, Email := e }], stmts := [insertStmt], log := [] } := by
  simp [HandlerRegister, hdec, hu, he, ExecInsert, ResponseWriter.WriteHeader,
    ResponseWriter.fresh, StatusCreated]

/-- C2: a POST to `HandlerRegister` whose body decodes to a non-empty username `u` and
a non-empty email `e`, with the INSERT succeeding, answers 201 with an empty body, and
the table afterwards is the table before followed by the one new row `(u, e)`: every
row is stored once more than before if it equals `(u, e)` and as often as before
otherwise, whether or not `(u, e)` was already stored. -/
theorem register_success (t : Table) (body u e : String)
    (hdec : json.Decode body = Except.ok { Username := u, Email := e })
    (hu : u ≠ "") (he : e ≠ "") :
    (HandlerRegister ResponseWriter.fresh { Method := MethodPost, Body := body } t none).w.code
        = 201
    ∧ (HandlerRegister ResponseWriter.fresh { Method := MethodPost, Body := body } t none).w.body
        = ""
    ∧ (HandlerRegister ResponseWriter.fresh { Method := MethodPost, Body := body } t none).users
        = t ++ [{ Username := u, Email := e }]
    ∧ ∀ row : User,
        (HandlerRegister ResponseWriter.fresh { Method := MethodPost, Body := body } t
            none).users.count row
          = t.count row + (if row = { Username := u, Email := e } then 1 else 0) := by
  rw [HandlerRegister_created t body u e hdec hu he]
  refine ⟨rfl, rfl, rfl, ?_⟩
  intro row
  simp only [List.count_append]
  by_cases h : row = { Username := u, Email := e }
  · subst h; simp
  · have h2 : ¬ ({ Username := u, Email := e } : User) = row := fun h3 => h h3.symm
    simp [h, List.count_cons, h2]

/-- C2 at a stored duplicate: registering alice a second time adds a second row. -/
theorem register_success_witness :
    (json.Decode "\x7b\"username\":\"alice\",\"email\":\"a@x.com\"\x7d"
        = Except.ok { Username := "alice", Email := "a@x.com" }
      ∧ "alice" ≠ "" ∧ "a@x.com" ≠ "")
    ∧ (HandlerRegister ResponseWriter.fresh
          { Method := MethodPost, Body := "\x7b\"username\":\"alice\",\"email\":\"a@x.com\"\x7d" }
          [{ Username := "alice", Email := "a@x.com" }] none).users
        = [{ Username := "alice", Email := "a@x.com" }, { Username := "alice", Email := "a@x.com" }] :=
  ⟨⟨rfl, by decide, by decide⟩,
    (register_success [{ Username := "alice", Email := "a@x.com" }]
      "\x7b\"username\":\"alice\",\"email\":\"a@x.com\"\x7d" "alice" "a@x.com" rfl
      (by decide) (by decide)).2.2.1⟩

/-- C4: a POST to `HandlerRegister` whose body decodes to an empty username or an empty
email, whatever the other field and whatever the driver would answer, is answered 400
with the message `Missing fields`; no statement is issued and the table is unchanged. -/
theorem register_missing_fields (t : Table) (body u e : String) (execFault : Option String)
    (hdec : json.Decode body = Except.ok { Username := u, Email := e })
    (hempty : u = "" ∨ e = "") :
    (HandlerRegister ResponseWriter.fresh { Method := MethodPost, Body := body } t
        execFault).w.code = 400
    ∧ (HandlerRegister ResponseWriter.fresh { Method := MethodPost, Body := body } t
        execFault).w.body = "Missing fields\n"
    ∧ (HandlerRegister ResponseWriter.fresh { Method := MethodPost, Body := body } t
        execFault).stmts = []
    ∧ (HandlerRegister ResponseWriter.fresh { Method := MethodPost, Body := body } t
        execFault).users = t := by
  simp [HandlerRegister, hdec, hempty, Error_fresh, ResponseWriter.code, StatusBadRequest]

/-- C4 on the body of the scenario: an empty username next to an email. -/
theorem register_missing_fields_witness :
    (json.Decode "\x7b\"username\":\"\",\"email\":\"a@x.com\"\x7d"
        = Except.ok { Username := "", Email := "a@x.com" }
      ∧ ("" = "" ∨ "a@x.com" = ""))
    ∧ (HandlerRegister ResponseWriter.fresh
          { Method := MethodPost, Body := "\x7b\"username\":\"\",\"email\":\"a@x.com\"\x7d" }
          [] none).w.code = 400
    ∧ (HandlerRegister ResponseWriter.fresh
          { Method := MethodPost, Body := "\x7b\"username\":\"\",\"email\":\"a@x.com\"\x7d" }
          [] none).w.body = "Missing fields\n" :=
  ⟨⟨rfl, Or.inl rfl⟩,
    (register_missing_fields [] "\x7b\"username\":\"\",\"email\":\"a@x.com\"\x7d" "" "a@x.com"
      none rfl (Or.inl rfl)).1,
    (register_missing_fields [] "\x7b\"username\":\"\",\"email\":\"a@x.com\"\x7d" "" "a@x.com"
      none rfl (Or.inl rfl)).2.1⟩

/-- C7: a request to `HandlerRegister` whose method is not POST, and a request to
`HandlerUser` whose method is not GET, are answered 405 with an empty body, whatever
the body and whatever the driver would answer; no statement is issued, nothing is
logged and the table is unchanged.  No other check comes first. -/
theorem method_mismatch (t : Table) (r : Request) (execFault : Option String)
    (q : QueryResult) :
    (r.Method ≠ MethodPost →
      HandlerRegister ResponseWriter.fresh r t execFault
        = { w := { header := [], status := some 405, body := "" }, users := t, stmts := [],
            log := [] })
    ∧ (r.Method ≠ MethodGet →
      HandlerUser ResponseWriter.fresh r t q
        = { w := { header := [], status := some 405, body := "" }, users := t, stmts := [],
            log := [] }) := by
  constructor
  · intro h
    simp [HandlerRegister, h, ResponseWriter.WriteHeader, ResponseWriter.fresh,
      StatusMethodNotAllowed]
  · intro h
    simp [HandlerUser, h, ResponseWriter.WriteHeader, ResponseWriter.fresh,
      StatusMethodNotAllowed]

/-- C7 on GET /register with a body that is no JSON, and on POST /users. -/
theorem method_mismatch_witness :
    ("GET" ≠ MethodPost ∧ "POST" ≠ MethodGet)
    ∧ (HandlerRegister ResponseWriter.fresh { Method := "GET", Body := "not json" } [] none).w.code
        = 405
    ∧ (HandlerUser ResponseWriter.fresh { Method := "POST", Body := "" } []
        (QueryResult.rows { steps := [], err := none })).w.code = 405 :=
  ⟨⟨by decide, by decide⟩,
    by
      rw [(method_mismatch [] { Method := "GET", Body := "not json" } none
        (QueryResult.failed "")).1 (by decide)]
      rfl,
    by
      rw [(method_mismatch [] { Method := "POST", Body := "" } none
        (QueryResult.rows { steps := [], err := none })).2 (by decide)]
      rfl⟩

/-- C9: a POST to `HandlerRegister` whose body decodes to a non-empty username and a
non-empty email and whose INSERT fails with `err` is answered 500 with the message
`Internal server error`; status, headers and body are one fixed value that does not
mention `err`, which appears only in the log line; the table is unchanged. -/
theorem register_insert_failure (t : Table) (body u e err : String)
    (hdec : json.Decode body = Except.ok { Username := u, Email := e })
    (hu : u ≠ "") (he : e ≠ "") :
    HandlerRegister ResponseWriter.fresh { Method := MethodPost, Body := body } t (some err)
      = { w := { header := [("Content-Type", "text/plain; charset=utf-8"),
                            ("X-Content-Type-Options", "nosniff")],
                 status := some 500, body := "Internal server error\n" },
          users := t, stmts := [insertStmt],
          log := ["Failed to insert user: " ++ err ++ "\n"] } := by
  simp [HandlerRegister, hdec, hu, he, ExecInsert, Error_fresh, StatusInternalServerError]

/-- C9 for two different causes: the two responses are equal. -/
theorem register_insert_failure_witness :
    (json.Decode "\x7b\"username\":\"alice\",\"email\":\"a@x.com\"\x7d"
        = Except.ok { Username := "alice", Email := "a@x.com" }
      ∧ "alice" ≠ "" ∧ "a@x.com" ≠ "")
    ∧ (HandlerRegister ResponseWriter.fresh
          { Method := MethodPost, Body := "\x7b\"username\":\"alice\",\"email\":\"a@x.com\"\x7d" }
          [] (some "connection refused")).w
        = (HandlerRegister ResponseWriter.fresh
          { Method := MethodPost, Body := "\x7b\"username\":\"alice\",\"email\":\"a@x.com\"\x7d" }
          [] (some "disk full")).w :=
  ⟨⟨rfl, by decide, by decide⟩, by
    rw [register_insert_failure [] "\x7b\"username\":\"alice\",\"email\":\"a@x.com\"\x7d"
        "alice" "a@x.com" "connection refused" rfl (by decide) (by decide),
      register_insert_failure [] "\x7b\"username\":\"alice\",\"email\":\"a@x.com\"\x7d"
        "alice" "a@x.com" "disk full" rfl (by decide) (by decide)]⟩

/-- A request to `HandlerUser` never changes the table. -/
theorem HandlerUser_users (w : ResponseWriter) (r : Request) (t : Table) (q : QueryResult) :
    (HandlerUser w r t q).users = t := by
  unfold HandlerUser
  split
  · rfl
  · split
    · rfl
    · split <;> rfl

/-- One request keeps every stored record non-empty. -/
theorem step_NonEmptyRows (t : Table) (c : Call) (h : NonEmptyRows t) :
    NonEmptyRows (step t c) := by
  cases c with
  | users r q => simpa [step, HandlerUser_users] using h
  | register r execFault =>
    simp only [step, HandlerRegister]
    split
    · exact h
    · split
      · exact h
      · rename_i regUser _
        split
        · exact h
        · rename_i hne
          cases execFault with
          | some err => simpa [ExecInsert] using h
          | none =>
            simp only [ExecInsert]
            intro u hu
            rcases List.mem_append.1 hu with hu | hu
            · exact h u hu
            · have hu2 : u = { Username := regUser.Username, Email := regUser.Email } := by
                simpa using hu
              subst hu2
              exact ⟨fun h1 => hne (Or.inl h1), fun h2 => hne (Or.inr h2)⟩

/-- A sequence of requests keeps every stored record non-empty. -/
theorem run_NonEmptyRows (cs : List Call) (t : Table) (h : NonEmptyRows t) :
    NonEmptyRows (run t cs) := by
  induction cs generalizing t with
  | nil => exact h
  | cons c cs ih => exact ih (step t c) (step_NonEmptyRows t c h)

/-- C8: if every row of the table has a non-empty username and a non-empty email, so
has every row after one request to either handler, whatever its method and body and
whatever the driver answers; and from the table `Connect` creates where there was
none, every table reached by any sequence of requests has only such rows. -/
theorem stored_record_invariant :
    (∀ (t : Table) (c : Call), NonEmptyRows t → NonEmptyRows (step t c))
    ∧ (∀ (openFault execFault : Option String) (t0 : Table) (cs : List Call),
        Connect none openFault execFault = (some t0, none) → NonEmptyRows (run t0 cs)) := by
  refine ⟨step_NonEmptyRows, ?_⟩
  intro openFault execFault t0 cs hc
  apply run_NonEmptyRows
  cases openFault with
  | some e => simp [Connect] at hc
  | none =>
    cases execFault with
    | some e => simp [Connect, ExecCreate] at hc
    | none =>
      have ht : t0 = [] := by
        simp [Connect, ExecCreate] at hc
        exact hc
      subst ht
      intro u hu
      cases hu

/-- C8 on a run from the table `Connect` creates: a registration, a listing, a
registration with an empty username and a registration whose INSERT fails. -/
theorem stored_record_invariant_witness :
    Connect none none none = (some [], none)
    ∧ NonEmptyRows (run []
        [Call.register
            { Method := "POST", Body := "\x7b\"username\":\"alice\",\"email\":\"a@x.com\"\x7d" } none,
          Call.users { Method := "GET", Body := "" }
            (QueryResult.rows { steps := [RowStep.row { Username := "alice", Email := "a@x.com" }],
                                err := none }),
          Call.register
            { Method := "POST", Body := "\x7b\"username\":\"\",\"email\":\"a@x.com\"\x7d" } none,
          Call.register
            { Method := "POST", Body := "\x7b\"username\":\"bob\",\"email\":\"b@x.com\"\x7d" }
            (some "connection refused")]) :=
  ⟨rfl, stored_record_invariant.2 none none [] _ rfl⟩

/-- The two failures `HandlerUser` does check: a failed `Query` and a failed `Scan`
are answered 500 with the message `Internal server error`. -/
theorem listing_checked_failures (t : Table) (body err : String) (before : List User)
    (after : List RowStep) (e2 : Option String) :
    (HandlerUser ResponseWriter.fresh { Method := MethodGet, Body := body } t
        (QueryResult.failed err)).w
      = { header := [("Content-Type", "text/plain; charset=utf-8"),
                     ("X-Content-Type-Options", "nosniff")],
          status := some 500, body := "Internal server error\n" }
    ∧ (HandlerUser ResponseWriter.fresh { Method := MethodGet, Body := body } t
        (QueryResult.rows
          { steps := before.map RowStep.row ++ RowStep.scanFails err :: after, err := e2 })).w
      = { header := [("Content-Type", "text/plain; charset=utf-8"),
                     ("X-Content-Type-Options", "nosniff")],
          status := some 500, body := "Internal server error\n" } := by
  have hloop : ∀ (xs : List User) (acc : json.Slice),
      scanLoop (xs.map RowStep.row ++ RowStep.scanFails err :: after) acc = Except.error err := by
    intro xs
    induction xs with
    | nil => intro acc; rfl
    | cons x xs ih => intro acc; simpa [scanLoop] using ih (acc.append x)
  constructor
  · simp [HandlerUser, Error_fresh, StatusInternalServerError]
  · simp [HandlerUser, hloop, Error_fresh, StatusInternalServerError]

/-- C10, the failure `HandlerUser` does not check: the table holds alice and bob, the
result set delivers alice and then `Next` returns false because the connection broke
(`rows.Err()` is not nil).  The response is 200 with a body that lists alice only, and
nothing is logged. -/
theorem listing_iteration_error_partial :
    HandlerUser ResponseWriter.fresh { Method := "GET", Body := "" }
        [{ Username := "alice", Email := "a@x.com" }, { Username := "bob", Email := "b@x.com" }]
        (QueryResult.rows { steps := [RowStep.row { Username := "alice", Email := "a@x.com" }],
                            err := some "connection reset by peer" })
      = { w := { header := [("Content-Type", "application/json")], status := some 200,
                 body := "[\x7b\"username\":\"alice\",\"email\":\"a@x.com\"\x7d]\n" },
          users := [{ Username := "alice", Email := "a@x.com" },
                    { Username := "bob", Email := "b@x.com" }],
          stmts := [selectStmt], log := [] } := by
  rfl

/-- The scan loop over rows that all scan appends them in order. -/
theorem scanLoop_rows (xs : List User) (ys : List User) :
    scanLoop (xs.map RowStep.row) (some ys) = Except.ok (some (ys ++ xs)) := by
  induction xs generalizing ys with
  | nil => simp [scanLoop]
  | cons x xs ih => simp [scanLoop, json.Slice.append, ih]

/-- The scan loop from the nil slice over at least one row, all scanning. -/
theorem scanLoop_rows_nil (x : User) (xs : List User) :
    scanLoop ((x :: xs).map RowStep.row) none = Except.ok (some (x :: xs)) := by
  simp [scanLoop, json.Slice.append, scanLoop_rows]

/-- The response of `HandlerUser` to a GET whose result set delivers the rows `x :: xs`
without a fault. -/
theorem HandlerUser_rows (t : Table) (r : Request) (x : User) (xs : List User)
    (hm : r.Method = MethodGet) :
    HandlerUser ResponseWriter.fresh r t
        (QueryResult.rows { steps := (x :: xs).map RowStep.row, err := none })
      = { w := { header := [("Content-Type", "application/json")], status := some 200,
                 body := json.Encode (some (x :: xs)) },
          users := t, stmts := [selectStmt], log := [] } := by
  simp only [HandlerUser, hm, scanLoop_rows_nil]
  simp [ResponseWriter.fresh, ResponseWriter.Set, ResponseWriter.Write,
    ResponseWriter.WriteHeader, StatusOK, empty_append_string]

/-- The outcome of a GET to `HandlerUser` on a table with at least one row, when the
result set delivers every stored row once and every scan succeeds. -/
theorem HandlerUser_complete (t : Table) (r : Request) (rs : Rows) (order : List User)
    (hm : r.Method = MethodGet) (hne : t ≠ []) (hc : rs.complete t order) :
    (∃ x xs, order = x :: xs)
    ∧ HandlerUser ResponseWriter.fresh r t (QueryResult.rows rs)
      = { w := { header := [("Content-Type", "application/json")], status := some 200,
                 body := json.Encode (some order) },
          users := t, stmts := [selectStmt], log := [] } := by
  obtain ⟨hsteps, herr, hperm⟩ := hc
  have hrs : rs = { steps := order.map RowStep.row, err := none } := by
    cases rs; simp_all
  cases order with
  | nil => exact absurd (List.Perm.eq_nil (List.Perm.symm hperm)) hne
  | cons x xs => exact ⟨⟨x, xs, rfl⟩, by rw [hrs, HandlerUser_rows t r x xs hm]⟩

/-- C3: on a table with at least one row, a GET to `HandlerUser` whose result set
delivers every stored row once (in the order `order` the storage chose) with every
scan succeeding is answered 200 with `Content-Type: application/json` and a body that
is the JSON array of one `username`/`email` object per delivered row, in that order,
followed by a newline; read back it gives exactly the rows `order`, which hold every
stored row as often as the table does. -/
theorem listing_success (t : Table) (r : Request) (rs : Rows) (order : List User)
    (hm : r.Method = MethodGet) (hne : t ≠ []) (hc : rs.complete t order) :
    (HandlerUser ResponseWriter.fresh r t (QueryResult.rows rs)).w.code = 200
    ∧ (HandlerUser ResponseWriter.fresh r t (QueryResult.rows rs)).w.header
        = [("Content-Type", "application/json")]
    ∧ json.readValue (HandlerUser ResponseWriter.fresh r t (QueryResult.rows rs)).w.body.toList
        = some (json.JValue.arr (order.map json.userValue), [Char.ofNat 10])
    ∧ json.DecodeSlice (HandlerUser ResponseWriter.fresh r t (QueryResult.rows rs)).w.body
        = some (some order)
    ∧ order.length = t.length
    ∧ ∀ row : User, order.count row = t.count row := by
  obtain ⟨⟨x, xs, hx⟩, hout⟩ := HandlerUser_complete t r rs order hm hne hc
  rw [hout]
  refine ⟨rfl, rfl, ?_, json.DecodeSlice_Encode _, hc.2.2.length_eq,
    fun row => hc.2.2.count_eq row⟩
  subst hx
  exact json.readValue_Encode x xs

/-- C3 on a table of two rows that the storage returns in the other order. -/
theorem listing_success_witness :
    (MethodGet = MethodGet
      ∧ ([{ Username := "alice", Email := "a@x.com" }, { Username := "bob", Email := "b@x.com" }]
          : Table) ≠ []
      ∧ Rows.complete
          { steps := [RowStep.row { Username := "bob", Email := "b@x.com" },
                      RowStep.row { Username := "alice", Email := "a@x.com" }], err := none }
          [{ Username := "alice", Email := "a@x.com" }, { Username := "bob", Email := "b@x.com" }]
          [{ Username := "bob", Email := "b@x.com" }, { Username := "alice", Email := "a@x.com" }])
    ∧ json.DecodeSlice (HandlerUser ResponseWriter.fresh { Method := MethodGet, Body := "" }
          [{ Username := "alice", Email := "a@x.com" }, { Username := "bob", Email := "b@x.com" }]
          (QueryResult.rows
            { steps := [RowStep.row { Username := "bob", Email := "b@x.com" },
                        RowStep.row { Username := "alice", Email := "a@x.com" }],
              err := none })).w.body
        = some (some [{ Username := "bob", Email := "b@x.com" },
                      { Username := "alice", Email := "a@x.com" }]) :=
  ⟨⟨rfl, by decide, rfl, rfl, List.Perm.swap _ _ _⟩,
    (listing_success _ { Method := MethodGet, Body := "" } _ _ rfl (by decide)
      ⟨rfl, rfl, List.Perm.swap _ _ _⟩).2.2.2.1⟩

/-- C1: for non-empty `u` and `e` the object written for them is a body that decodes
to them, and for every body that decodes to `(u, e)`: the POST to `HandlerRegister`
with a succeeding INSERT is answered 201, and a GET to `HandlerUser` on the table it
leaves, whose result set delivers every stored row once with every scan succeeding, is
answered 200 with a body that reads back as the delivered rows, `(u, e)` among them. -/
theorem register_then_list (t : Table) (body u e : String) (r : Request) (rs : Rows)
    (order : List User)
    (hdec : json.Decode body = Except.ok { Username := u, Email := e })
    (hu : u ≠ "") (he : e ≠ "") (hm : r.Method = MethodGet)
    (hc : rs.complete
      (HandlerRegister ResponseWriter.fresh { Method := MethodPost, Body := body } t none).users
      order) :
    json.Decode (String.mk (json.encodeUser { Username := u, Email := e }))
        = Except.ok { Username := u, Email := e }
    ∧ (HandlerRegister ResponseWriter.fresh { Method := MethodPost, Body := body } t none).w.code
        = 201
    ∧ (HandlerUser ResponseWriter.fresh r
        (HandlerRegister ResponseWriter.fresh { Method := MethodPost, Body := body } t none).users
        (QueryResult.rows rs)).w.code = 200
    ∧ json.DecodeSlice (HandlerUser ResponseWriter.fresh r
        (HandlerRegister ResponseWriter.fresh { Method := MethodPost, Body := body } t none).users
        (QueryResult.rows rs)).w.body = some (some order)
    ∧ ({ Username := u, Email := e } : User) ∈ order := by
  have hreg := HandlerRegister_created t body u e hdec hu he
  rw [hreg] at hc ⊢
  have hne : t ++ [({ Username := u, Email := e } : User)] ≠ [] := by simp
  obtain ⟨_, hout⟩ := HandlerUser_complete _ r rs order hm hne hc
  rw [hout]
  refine ⟨?_, rfl, rfl, json.DecodeSlice_Encode _, ?_⟩
  · have := json.Decode_encodeUser { Username := u, Email := e } []
    rwa [List.append_nil] at this
  · exact hc.2.2.mem_iff.2 (by simp)

/-- C1 on the scenario: alice registered on the empty table, then listed; the body sent
is the array of the one object, followed by a newline. -/
theorem register_then_list_witness :
    (json.Decode "\x7b\"username\":\"alice\",\"email\":\"a@x.com\"\x7d"
        = Except.ok { Username := "alice", Email := "a@x.com" }
      ∧ "alice" ≠ "" ∧ "a@x.com" ≠ "" ∧ MethodGet = MethodGet)
    ∧ json.DecodeSlice (HandlerUser ResponseWriter.fresh { Method := MethodGet, Body := "" }
        (HandlerRegister ResponseWriter.fresh
          { Method := MethodPost, Body := "\x7b\"username\":\"alice\",\"email\":\"a@x.com\"\x7d" }
          [] none).users
        (QueryResult.rows
          { steps := [RowStep.row { Username := "alice", Email := "a@x.com" }],
            err := none })).w.body
        = some (some [{ Username := "alice", Email := "a@x.com" }])
    ∧ (HandlerUser ResponseWriter.fresh { Method := MethodGet, Body := "" }
        (HandlerRegister ResponseWriter.fresh
          { Method := MethodPost, Body := "\x7b\"username\":\"alice\",\"email\":\"a@x.com\"\x7d" }
          [] none).users
        (QueryResult.rows
          { steps := [RowStep.row { Username := "alice", Email := "a@x.com" }],
            err := none })).w.body
        = "[\x7b\"username\":\"alice\",\"email\":\"a@x.com\"\x7d]\n" :=
  ⟨⟨rfl, by decide, by decide, rfl⟩,
    (register_then_list [] "\x7b\"username\":\"alice\",\"email\":\"a@x.com\"\x7d" "alice"
      "a@x.com" { Method := MethodGet, Body := "" }
      { steps := [RowStep.row { Username := "alice", Email := "a@x.com" }], err := none }
      [{ Username := "alice", Email := "a@x.com" }] rfl (by decide) (by decide) rfl
      ⟨rfl, rfl, List.Perm.refl _⟩).2.2.2.1,
    rfl⟩

/-- C6 as stated fails: on the empty table, with the query succeeding and delivering no
row, the body `HandlerUser` sends is `null` and a newline, which is not a JSON array. -/
theorem empty_listing_not_array :
    (HandlerUser ResponseWriter.fresh { Method := "GET", Body := "" } []
        (QueryResult.rows { steps := [], err := none })).w.body = "null\n"
    ∧ ¬ ∃ xs rest,
        json.readValue (HandlerUser ResponseWriter.fresh { Method := "GET", Body := "" } []
          (QueryResult.rows { steps := [], err := none })).w.body.toList
          = some (json.JValue.arr xs, rest) := by
  refine ⟨rfl, ?_⟩
  rintro ⟨xs, rest, h⟩
  have hnull : json.readValue (HandlerUser ResponseWriter.fresh { Method := "GET", Body := "" } []
      (QueryResult.rows { steps := [], err := none })).w.body.toList
      = some (json.JValue.null, [Char.ofNat 10]) := rfl
  rw [hnull] at h
  cases h

/-- C6 amended: on the empty table, a GET to `HandlerUser` whose query succeeds and
delivers no row is answered 200 with `Content-Type: application/json` and the body
`null` followed by a newline: the JSON value null, which reads back as the nil slice. -/
theorem empty_listing (r : Request) (rs : Rows) (order : List User)
    (hm : r.Method = MethodGet) (hc : rs.complete [] order) :
    HandlerUser ResponseWriter.fresh r [] (QueryResult.rows rs)
        = { w := { header := [("Content-Type", "application/json")], status := some 200,
                   body := "null\n" },
            users := [], stmts := [selectStmt], log := [] }
    ∧ json.readValue (HandlerUser ResponseWriter.fresh r [] (QueryResult.rows rs)).w.body.toList
        = some (json.JValue.null, [Char.ofNat 10])
    ∧ json.DecodeSlice (HandlerUser ResponseWriter.fresh r [] (QueryResult.rows rs)).w.body
        = some none := by
  obtain ⟨hsteps, herr, hperm⟩ := hc
  have horder : order = [] := List.Perm.eq_nil hperm
  subst horder
  have hrs : rs = { steps := [], err := none } := by
    cases rs; simp_all
  have hout : HandlerUser ResponseWriter.fresh r [] (QueryResult.rows rs)
      = { w := { header := [("Content-Type", "application/json")], status := some 200,
                 body := "null\n" },
          users := [], stmts := [selectStmt], log := [] } := by
    rw [hrs]
    simp only [HandlerUser, hm, scanLoop]
    simp [ResponseWriter.fresh, ResponseWriter.Set, ResponseWriter.Write,
      ResponseWriter.WriteHeader, StatusOK, empty_append_string]
    rfl
  rw [hout]
  exact ⟨rfl, rfl, rfl⟩

/-- C6 amended, on a GET to the empty table. -/
theorem empty_listing_witness :
    (MethodGet = MethodGet ∧ Rows.complete { steps := [], err := none } [] [])
    ∧ (HandlerUser ResponseWriter.fresh { Method := MethodGet, Body := "" } []
        (QueryResult.rows { steps := [], err := none })).w.body = "null\n" :=
  ⟨⟨rfl, rfl, rfl, List.Perm.refl _⟩, by
    rw [(empty_listing { Method := MethodGet, Body := "" } { steps := [], err := none } [] rfl
      ⟨rfl, rfl, List.Perm.refl _⟩).1]⟩

/-- `HandlerRegister` answers a POST with `Invalid request body` exactly when the body
is rejected. -/
theorem HandlerRegister_invalid_iff (t : Table) (body : String) (execFault : Option String) :
    HandlerRegister ResponseWriter.fresh { Method := MethodPost, Body := body } t execFault
        = invalidBody t
      ↔ json.rejected body = true := by
  constructor
  · intro h
    cases hr : json.rejected body with
    | true => rfl
    | false =>
      obtain ⟨u, hu⟩ := json.Decode_ok_of_not_rejected body hr
      exfalso
      have hbody := congrArg (fun o => o.w.body) h
      have hcode := congrArg (fun o => o.w.status) h
      simp only [HandlerRegister, hu, invalidBody] at hbody hcode
      by_cases hempty : u.Username = "" ∨ u.Email = ""
      · simp [hempty, Error_fresh] at hbody
      · cases execFault with
        | some err => simp [hempty, ExecInsert, Error_fresh, StatusInternalServerError] at hcode
        | none =>
          simp [hempty, ExecInsert, ResponseWriter.WriteHeader, ResponseWriter.fresh,
            StatusCreated] at hcode
  · intro h
    obtain ⟨err, herr⟩ := (json.Decode_error_iff body).2 h
    simp [HandlerRegister, herr, Error_fresh, StatusBadRequest, invalidBody]

/-- `HandlerRegister` answers a POST the same whatever is appended to a body with a
first value, unless that value is a number that runs to the end of the body. -/
theorem HandlerRegister_append (t : Table) (body : String) (v : json.JValue)
    (rest trailing : List Char) (execFault : Option String)
    (h : json.readValue body.toList = some (v, rest)) (hnum : v = json.JValue.num → rest ≠ []) :
    HandlerRegister ResponseWriter.fresh
        { Method := MethodPost, Body := String.mk (body.toList ++ trailing) } t execFault
      = HandlerRegister ResponseWriter.fresh { Method := MethodPost, Body := body } t
          execFault := by
  simp only [HandlerRegister, json.Decode_append body v rest trailing h hnum]

/-- `HandlerRegister` answers a POST whose first value is `null` with `Missing fields`. -/
theorem HandlerRegister_null (t : Table) (body : String) (rest : List Char)
    (execFault : Option String) (h : json.readValue body.toList = some (json.JValue.null, rest)) :
    HandlerRegister ResponseWriter.fresh { Method := MethodPost, Body := body } t execFault
      = missingFields t := by
  have hdec : json.Decode body = Except.ok { Username := "", Email := "" } := by
    cases hsk : json.skipSpace body.toList with
    | nil => rw [json.readValue_blank _ hsk] at h; cases h
    | cons c r => simp only [json.Decode, hsk, h]; rfl
  simp [HandlerRegister, hdec, Error_fresh, StatusBadRequest, missingFields]

/-- C5 as stated fails: a POST whose body is a valid object followed by bytes that are
no JSON is answered 201 and the row is inserted; and a POST whose body is the JSON
value `null`, an object whose `username` is `null`, or the empty object is answered
with the message `Missing fields`, not `Invalid request body`. -/
theorem register_trailing_bytes_accepted :
    HandlerRegister ResponseWriter.fresh
        { Method := "POST", Body := "\x7b\"username\":\"bob\",\"email\":\"b@x.com\"\x7d]]xyz" }
        [] none
      = { w := { header := [], status := some 201, body := "" },
          users := [{ Username := "bob", Email := "b@x.com" }], stmts := [insertStmt],
          log := [] }
    ∧ (HandlerRegister ResponseWriter.fresh { Method := "POST", Body := "null" } [] none).w.body
        = "Missing fields\n"
    ∧ (HandlerRegister ResponseWriter.fresh
        { Method := "POST", Body := "\x7b\"username\":null,\"email\":\"a@x.com\"\x7d" } []
        none).w.body = "Missing fields\n"
    ∧ (HandlerRegister ResponseWriter.fresh { Method := "POST", Body := "\x7b\x7d" } []
        none).w.body = "Missing fields\n" := by
  exact ⟨rfl, rfl, rfl, rfl⟩

/-- C5 amended: a POST to `HandlerRegister` is answered 400 with the message `Invalid
request body`, no statement issued and the table unchanged, exactly when its body is
rejected: the body does not start with a well-formed JSON value, or its first value is
neither `null` nor an object in which every member whose key names `username` or
`email` holds a string or `null`.  Rejected are in particular every empty or blank
body, every body whose first character after white space is neither an opening brace
nor `n` (an array, a string, a number, a boolean), every body whose first value is an
object with a member that names a field and holds a number, a boolean, an array or an
object, and every body that starts with an opening brace and stops before the object
ends.  Only the first value is read: what is appended to a body with a first value
(other than a number running to the end of the body) does not change the answer; and
a body whose first value is `null` is answered `Missing fields`. -/
theorem register_invalid_body :
    (∀ (t : Table) (body : String) (execFault : Option String),
      HandlerRegister ResponseWriter.fresh { Method := MethodPost, Body := body } t execFault
          = invalidBody t
        ↔ json.rejected body = true)
    ∧ (∀ (body : String),
      (json.skipSpace body.toList = []
        ∨ ∃ c r, json.skipSpace body.toList = c :: r ∧ c.toNat ≠ 123 ∧ c.toNat ≠ 110) →
      json.rejected body = true)
    ∧ (∀ (body : String) (kvs : List (List Char × json.JValue)) (rest key : List Char)
        (val : json.JValue),
      json.readValue body.toList = some (json.JValue.obj kvs, rest) → (key, val) ∈ kvs →
      (json.lookupField key).isSome = true → json.fitsString val = false →
      json.rejected body = true)
    ∧ (∀ (b t : List Char) (c : Char) (r : List Char) (v : json.JValue) (rest : List Char),
      json.skipSpace b = c :: r → c.toNat = 123 →
      json.readValue (b ++ t) = some (v, rest) → rest.length < t.length →
      json.rejected (String.mk b) = true)
    ∧ (∀ (t : Table) (body : String) (v : json.JValue) (rest trailing : List Char)
        (execFault : Option String),
      json.readValue body.toList = some (v, rest) → (v = json.JValue.num → rest ≠ []) →
      HandlerRegister ResponseWriter.fresh
          { Method := MethodPost, Body := String.mk (body.toList ++ trailing) } t execFault
        = HandlerRegister ResponseWriter.fresh { Method := MethodPost, Body := body } t
            execFault)
    ∧ (∀ (t : Table) (body : String) (rest : List Char) (execFault : Option String),
      json.readValue body.toList = some (json.JValue.null, rest) →
      HandlerRegister ResponseWriter.fresh { Method := MethodPost, Body := body } t execFault
        = missingFields t) := by
  refine ⟨HandlerRegister_invalid_iff, ?_, json.rejected_of_wrong_type, ?_,
    HandlerRegister_append, HandlerRegister_null⟩
  · intro body h
    exact (json.Decode_error_iff body).1 (json.Decode_error_of_first body h)
  · intro b t c r v rest hb hc h hlen
    have hnone := json.readValue_cut_off b t c r v rest hb hc h hlen
    have htl : (String.mk b).toList = b := rfl
    simp only [json.rejected, htl, hnone]

/-- C5 amended, on the empty body, on a body that is a JSON array, on an object whose
`username` is a number, on an object cut off after its first member, and on a valid
object followed by bytes that are no JSON. -/
theorem register_invalid_body_witness :
    (json.rejected "" = true
      ∧ (json.skipSpace "[]".toList = [] ∨ ∃ c r, json.skipSpace "[]".toList = c :: r
          ∧ c.toNat ≠ 123 ∧ c.toNat ≠ 110)
      ∧ json.readValue "\x7b\"username\":1,\"email\":\"a@x.com\"\x7d".toList
          = some (json.JValue.obj [("username".toList, json.JValue.num),
              ("email".toList, json.JValue.str "a@x.com".toList)], [])
      ∧ json.skipSpace "\x7b\"username\":\"alice\",".toList
          = Char.ofNat 123 :: "\"username\":\"alice\",".toList
      ∧ json.readValue ("\x7b\"username\":\"alice\",".toList ++ "\"email\":\"a@x.com\"\x7d".toList)
          = some (json.JValue.obj [("username".toList, json.JValue.str "alice".toList),
              ("email".toList, json.JValue.str "a@x.com".toList)], [])
      ∧ json.readValue "\x7b\"username\":\"bob\",\"email\":\"b@x.com\"\x7d".toList
          = some (json.JValue.obj [("username".toList, json.JValue.str "bob".toList),
              ("email".toList, json.JValue.str "b@x.com".toList)], []))
    ∧ HandlerRegister ResponseWriter.fresh { Method := MethodPost, Body := "" } [] none
        = invalidBody []
    ∧ HandlerRegister ResponseWriter.fresh { Method := MethodPost, Body := "[]" } [] none
        = invalidBody []
    ∧ HandlerRegister ResponseWriter.fresh
        { Method := MethodPost, Body := "\x7b\"username\":1,\"email\":\"a@x.com\"\x7d" } [] none
        = invalidBody []
    ∧ HandlerRegister ResponseWriter.fresh
        { Method := MethodPost, Body := "\x7b\"username\":\"alice\"," } [] none
        = invalidBody []
    ∧ HandlerRegister ResponseWriter.fresh
        { Method := MethodPost,
          Body := String.mk ("\x7b\"username\":\"bob\",\"email\":\"b@x.com\"\x7d".toList
            ++ "]]xyz".toList) } [] none
        = HandlerRegister ResponseWriter.fresh
            { Method := MethodPost, Body := "\x7b\"username\":\"bob\",\"email\":\"b@x.com\"\x7d" }
            [] none :=
  ⟨⟨rfl, Or.inr ⟨Char.ofNat 91, [Char.ofNat 93], rfl, by decide, by decide⟩, rfl, rfl, rfl, rfl⟩,
    (register_invalid_body.1 [] "" none).2 rfl,
    (register_invalid_body.1 [] "[]" none).2
      (register_invalid_body.2.1 "[]"
        (Or.inr ⟨Char.ofNat 91, [Char.ofNat 93], rfl, by decide, by decide⟩)),
    (register_invalid_body.1 [] "\x7b\"username\":1,\"email\":\"a@x.com\"\x7d" none).2
      (register_invalid_body.2.2.1 "\x7b\"username\":1,\"email\":\"a@x.com\"\x7d" _ []
        "username".toList json.JValue.num rfl (List.mem_cons_self _ _) rfl rfl),
    (register_invalid_body.1 [] "\x7b\"username\":\"alice\"," none).2
      (register_invalid_body.2.2.2.1 "\x7b\"username\":\"alice\",".toList
        "\"email\":\"a@x.com\"\x7d".toList (Char.ofNat 123) _ _ [] rfl rfl rfl (by decide)),
    register_invalid_body.2.2.2.2.1 [] "\x7b\"username\":\"bob\",\"email\":\"b@x.com\"\x7d" _ []
      "]]xyz".toList none rfl (fun h => by cases h)⟩

end handlers

end HTTPServerWithDB
